import Mathlib

/-!
# Verification of the Vector-SDK resilient upload engine

Shallow embedding of the upload core of the Vector-SDK repository
(`src/upload.rs`, `src/blossom.rs`, `src/crypto.rs`) and proofs of the
frozen behavioural claims about it.

Modelling conventions:

* Byte buffers are `List Nat` (each element a byte value).
* Machine integers (`u64`, `u32`, `usize`) are `Nat`; the counters involved
  never approach `2^64` for any payload the code can hold in memory, and no
  wrapping arithmetic occurs in the modelled code.
* The asynchronous race between the HTTP response future and the 100 ms
  progress-sampling timer (`tokio::select!`) is embedded by an explicit
  environment: the list `samples` holds the values of the shared
  `bytes_sent` counter observed at each timer tick that fires before the
  response future completes, and the response outcome is a separate
  environment field.  All interleavings are covered by quantifying over
  the environment.
* External collaborators (reqwest, the Nostr signer, SHA-256, `Url::parse`,
  `Url::join`, the AES-GCM primitive) are parameters of the embedding;
  the code under verification only plumbs their results.
* Fallible Rust code returns `Except`; a Rust panic is the `fatal`
  constructor of `RustResult`.
-/

deriving instance DecidableEq for Except

namespace VectorSDK

/-- The percentage computation shared by both attempt loops
(`src/upload.rs` line 346, `src/blossom.rs` line 223):
`if total_size > 0 { ((current_bytes as f64 / total_size as f64) * 100.0) as u8 } else { 0 }`.
For `current_bytes ≤ total_size` the `f64` quotient times `100.0`, truncated
toward zero by the `as u8` cast, is `current_bytes * 100 / total_size`
(floor division), which is how the spec itself defines it (§3). -/
def percentageOf (totalSize currentBytes : Nat) : Nat :=
  if 0 < totalSize then currentBytes * 100 / totalSize else 0

/-- The `UploadError` enum of `src/upload.rs` (lines 42-63).  The Rust enum
has a variant named like the enum itself (`UploadError::UploadError(String)`);
it is rendered here as `uploadErrorMsg`. -/
inductive UploadError
  | reqwestError (msg : String)
  | multipartMimeError
  | uploadErrorMsg (msg : String)
  | responseDecodeError
  | genericError (msg : String)
deriving DecidableEq, Repr

/-- The stall-abort message of `src/upload.rs` line 356. -/
def stallMsg : String := "Upload stalled - no progress detected"

/-- Mutable locals of the `src/upload.rs` polling loop (lines 329-334):
`last_percentage`, `last_bytes_sent`, `stall_counter`. -/
structure TickSt where
  lastPercentage : Nat
  lastBytesSent : Nat
  stallCounter : Nat
deriving DecidableEq, Repr

/-- The progress callback: `Fn(Option<u8>, Option<u64>) -> Result<(), String>`.
Both call sites always pass `Some` for both arguments, so the model passes
the two numbers directly. -/
def ProgressCb : Type := Nat → Nat → Except String Unit

/-- The report step at the end of a `src/upload.rs` timer tick
(lines 364-370): invoke the callback only when the percentage strictly
increased beyond the last reported value; a callback error aborts with
`UploadError::UploadError(e)`.  Returns the report that was issued (if any)
paired with the outcome. -/
def reportStep (cb : ProgressCb) (st : TickSt) (percentage currentBytes : Nat) :
    Option (Nat × Nat) × Except UploadError TickSt :=
  if st.lastPercentage < percentage then
    match cb percentage currentBytes with
    | .error e => (some (percentage, currentBytes), .error (.uploadErrorMsg e))
    | .ok _ => (some (percentage, currentBytes), .ok { st with lastPercentage := percentage })
  else
    (none, .ok st)

/-- One timer tick of the `src/upload.rs` polling loop (lines 344-371):
read `current_bytes`, compute the percentage, run the stall check
(increment the stall counter when the byte counter is unchanged and the
percentage is strictly between 0 and 100, aborting once the counter reaches
`stall_threshold`; otherwise reset the counter and record the new byte
value), then run the report step. -/
def uploadTick (stallThreshold : Nat) (cb : ProgressCb) (totalSize : Nat)
    (st : TickSt) (currentBytes : Nat) :
    Option (Nat × Nat) × Except UploadError TickSt :=
  let percentage := percentageOf totalSize currentBytes
  if currentBytes = st.lastBytesSent ∧ percentage < 100 ∧ 0 < percentage then
    if stallThreshold ≤ st.stallCounter + 1 then
      (none, .error (.uploadErrorMsg stallMsg))
    else
      reportStep cb { st with stallCounter := st.stallCounter + 1 } percentage currentBytes
  else
    reportStep cb { st with stallCounter := 0, lastBytesSent := currentBytes }
      percentage currentBytes

/-- The `src/upload.rs` polling loop run over the byte-counter values
sampled at the timer ticks that fire before the response future completes.
Returns every progress report issued (in order) and either the loop state
when the response arrived or the aborting error. -/
def runTicksU (stallThreshold : Nat) (cb : ProgressCb) (totalSize : Nat) :
    TickSt → List Nat → List (Nat × Nat) × Except UploadError TickSt
  | st, [] => ([], .ok st)
  | st, cur :: rest =>
    match uploadTick stallThreshold cb totalSize st cur with
    | (rep, .error e) => (rep.toList, .error e)
    | (rep, .ok st1) =>
      let t := runTicksU stallThreshold cb totalSize st1 rest
      (rep.toList ++ t.1, t.2)

/-- Outcome of the HTTP exchange of one `src/upload.rs` attempt, as far as
the attempt code inspects it.  `sendErr` is an `Err` from the response
future (`reqwest::Error`, propagated by `break response?`); `jsonErr` is a
failure of `response.json::<UploadResponse>()` (also a `reqwest::Error`);
`parsed` carries the decoded NIP-96 `UploadResponse`: its status
(`isError` ↔ `UploadResponseStatus::Error`), its `message`, and
`nip94Url = some (some u)` when `nip94_event` is present and its tag list
contains a standardized `Url` tag `u`, `some none` when the event is
present without such a tag, `none` when `nip94_event` is `None`. -/
inductive UResp
  | sendErr (msg : String)
  | jsonErr (msg : String)
  | parsed (isError : Bool) (message : String) (nip94Url : Option (Option String))
deriving DecidableEq, Repr

/-- Environment of one `src/upload.rs::upload_attempt` invocation: results
of the external collaborators it consumes.  `authResult` is
`HttpData::to_authorization(signer)` (the NIP-98 header string);
`clientResult` is `make_client` (an error there is a `reqwest::Error`);
`mimeStrValid` is whether `Part::mime_str` accepted the supplied MIME
string; `samples` are the `bytes_sent` values read at the timer ticks that
fire before the response future completes; `response` is the HTTP
outcome. -/
structure UEnv where
  authResult : Except String String
  clientResult : Except String Unit
  mimeStrValid : Bool
  samples : List Nat
  response : UResp

namespace Upload

/-- After the polling loop of `src/upload.rs::upload_attempt` has ended with
the response (lines 375-391): the unconditional 100 % report, then response
decoding: a `json()` failure is a `reqwest::Error`; `status == Error`
returns `UploadError::UploadError(message)`; a missing `nip94_event` or a
missing `url` tag is `ResponseDecodeError`; otherwise the tag's URL is
returned.  `reports` accumulates the reports issued before this point. -/
def finishAttempt (cb : ProgressCb) (totalSize : Nat) (reports : List (Nat × Nat)) :
    UResp → List (Nat × Nat) × Except UploadError String
  | .sendErr e => (reports, .error (.reqwestError e))
  | .jsonErr e =>
    match cb 100 totalSize with
    | .error e2 => (reports ++ [(100, totalSize)], .error (.uploadErrorMsg e2))
    | .ok _ => (reports ++ [(100, totalSize)], .error (.reqwestError e))
  | .parsed isError message nip94Url =>
    match cb 100 totalSize with
    | .error e2 => (reports ++ [(100, totalSize)], .error (.uploadErrorMsg e2))
    | .ok _ =>
      if isError then (reports ++ [(100, totalSize)], .error (.uploadErrorMsg message))
      else
        match nip94Url with
        | none => (reports ++ [(100, totalSize)], .error .responseDecodeError)
        | some none => (reports ++ [(100, totalSize)], .error .responseDecodeError)
        | some (some url) => (reports ++ [(100, totalSize)], .ok url)

/-- `src/upload.rs::upload_attempt` (lines 271-392), as a function of the
attempt's environment.  Order of effects follows the source: NIP-98
authorization first (failure → `UploadError::UploadError`), then the
initial 0 % report (a callback error aborts), client construction, the
multipart MIME check (`MultipartMimeError`), the polling loop raced
against the response, and finally `finishAttempt`.  The returned list
collects every callback invocation `(percentage, bytesSent)` in order.

Note: in this file a transport error from the response future is surfaced
through `finishAttempt`'s `sendErr` case, which issues no 100 % report,
matching the `break response?` early return in the loop. -/
def upload_attempt (cb : ProgressCb) (totalSize stallThreshold : Nat)
    (mimeType : Option String) (env : UEnv) :
    List (Nat × Nat) × Except UploadError String :=
  match env.authResult with
  | .error e => ([], .error (.uploadErrorMsg e))
  | .ok _auth =>
  match cb 0 0 with
  | .error e => ([(0, 0)], .error (.uploadErrorMsg e))
  | .ok _ =>
  match env.clientResult with
  | .error e => ([(0, 0)], .error (.reqwestError e))
  | .ok _ =>
  if mimeType.isSome ∧ ¬ env.mimeStrValid then ([(0, 0)], .error .multipartMimeError)
  else
    match runTicksU stallThreshold cb totalSize ⟨0, 0, 0⟩ env.samples with
    | (tickReports, .error e) => ((0, 0) :: tickReports, .error e)
    | (tickReports, .ok _st) =>
      finishAttempt cb totalSize ((0, 0) :: tickReports) env.response

end Upload

/-- One observable event of the retry controller: a `tokio::time::sleep`
of the configured `retry_spacing`, or one invocation of the single-attempt
function (attempt index `i`, carrying the events the attempt itself
produced). -/
inductive REv (τ : Type)
  | sleep
  | attemptEvs (i : Nat) (evs : List τ)
deriving DecidableEq, Repr

/-- Number of attempt invocations recorded in a retry trace. -/
def countAttempts {τ : Type} : List (REv τ) → Nat
  | [] => 0
  | .sleep :: rest => countAttempts rest
  | .attemptEvs _ _ :: rest => countAttempts rest + 1

/-- Number of sleep events recorded in a retry trace. -/
def countSleeps {τ : Type} : List (REv τ) → Nat
  | [] => 0
  | .sleep :: rest => countSleeps rest + 1
  | .attemptEvs _ _ :: rest => countSleeps rest

/-- The trace the retry loop produces when every attempt fails: attempts
`i, i+1, …` for `remaining` iterations, a sleep before every attempt
except attempt 0. -/
def allFailTrace {τ E U : Type} (f : Nat → List τ × Except E U) :
    Nat → Nat → List (REv τ)
  | _, 0 => []
  | i, remaining + 1 =>
    (if i = 0 then [] else [.sleep])
      ++ .attemptEvs i (f i).1 :: allFailTrace f (i + 1) remaining

/-- The retry loop shared by `src/upload.rs::upload_data_with_progress`
(lines 235-267) and `src/blossom.rs::upload_blob_with_progress`
(lines 128-153): `for attempt in 0..=retry_count`, sleeping
`retry_spacing` before every attempt but the first, recording each failure
as the last error, returning the first success immediately, and on
exhaustion returning the last recorded error (or `noneErr`, the
"No upload attempts were made" error, if no attempt ran).  `i` is the next
attempt index, `remaining` the number of loop iterations left
(`retry_count + 1` at the top), `last` the recorded last error. -/
def retryGo {τ E U : Type} (f : Nat → List τ × Except E U) (noneErr : E) :
    Nat → Nat → Option E → List (REv τ) × Except E U
  | _, 0, last => ([], .error (last.getD noneErr))
  | i, remaining + 1, _last =>
    let pre : List (REv τ) := if i = 0 then [] else [.sleep]
    match f i with
    | (evs, .ok u) => (pre ++ [.attemptEvs i evs], .ok u)
    | (evs, .error e) =>
      let t := retryGo f noneErr (i + 1) remaining (some e)
      (pre ++ .attemptEvs i evs :: t.1, t.2)

/-- Entry point of the retry loop: attempts `0 .. retryCount` inclusive. -/
def retryRun {τ E U : Type} (f : Nat → List τ × Except E U) (noneErr : E)
    (retryCount : Nat) : List (REv τ) × Except E U :=
  retryGo f noneErr 0 (retryCount + 1) none

namespace Upload

/-- `src/upload.rs::upload_data_with_progress` (lines 219-268): the retry
loop around `upload_attempt`, with the per-attempt environment `envs i`
standing for the world state during attempt `i`.  The event list of each
attempt is its report list. -/
def upload_data_with_progress (cb : ProgressCb) (totalSize stallThreshold : Nat)
    (mimeType : Option String) (envs : Nat → UEnv) (retryCount : Nat) :
    List (REv (Nat × Nat)) × Except UploadError String :=
  retryRun (fun i => upload_attempt cb totalSize stallThreshold mimeType (envs i))
    (.uploadErrorMsg "No upload attempts were made") retryCount

end Upload

/-! ## Blossom upload (`src/blossom.rs`) -/

/-- The base64 alphabet of `base64::engine::general_purpose::STANDARD`. -/
def b64Chars : List Char :=
  "ABCDEFGHIJKLMNOPQRSTUVWXYZabcdefghijklmnopqrstuvwxyz0123456789+/".toList

/-- Character at a sextet value (< 64). -/
def b64Char (n : Nat) : Char := b64Chars.getD n 'A'

/-- Standard base64 with padding over a byte list, as performed by
`general_purpose::STANDARD.encode` in `build_auth_header`
(`src/blossom.rs` line 98). -/
def base64Encode : List Nat → String
  | [] => ""
  | [a] =>
    String.mk [b64Char (a / 4 % 64), b64Char (a % 4 * 16), '=', '=']
  | [a, b] =>
    String.mk [b64Char (a / 4 % 64), b64Char ((a % 4 * 16 + b / 16) % 64),
               b64Char (b % 16 * 4 % 64), '=']
  | a :: b :: c :: rest =>
    String.mk [b64Char (a / 4 % 64), b64Char ((a % 4 * 16 + b / 16) % 64),
               b64Char ((b % 16 * 4 + c / 64) % 64), b64Char (c % 64)]
      ++ base64Encode rest

/-- `nostr_blossom::BlossomAuthorizationVerb`; the upload code only ever
uses `Upload`. -/
inductive BAVerb
  | get
  | upload
  | listVerb
  | delete
deriving DecidableEq, Repr

/-- `nostr_blossom::BlossomAuthorizationScope`; the upload code only uses
the `BlobSha256Hashes` constructor, scoping the capability to a list of
content hashes (here: SHA-256 digests as byte lists). -/
inductive BAScope
  | blobSha256Hashes (hashes : List (List Nat))
deriving DecidableEq, Repr

/-- The capability descriptor built by `build_auth_header`
(`src/blossom.rs` lines 83-89): content string, absolute expiration
timestamp (seconds), verb, and scope. -/
structure BlossomAuthorization where
  content : String
  expiration : Nat
  verb : BAVerb
  scope : BAScope
deriving DecidableEq, Repr

/-- A signed Nostr event as the upload code consumes it: only its
canonical JSON serialization (`Event::as_json`, external to this repo)
matters, kept as its UTF-8 byte list. -/
structure NEvent where
  json : List Nat
deriving DecidableEq, Repr

/-- A signer: the external signing capability
(`EventBuilder::blossom_auth(auth).sign(signer)`), producing a signed
event for a capability descriptor, or a signing error. -/
def Signer : Type := BlossomAuthorization → Except String NEvent

/-- The capability descriptor `build_auth_header` constructs for content
hash `hash` at time `now`: fixed content string, expiration `now + 300`
(`Timestamp::now() + Duration::from_secs(300)`), the `Upload` verb, scope
limited to the single hash. -/
def mkAuth (hash : List Nat) (now : Nat) : BlossomAuthorization :=
  ⟨"Blossom upload authorization", now + 300, .upload, .blobSha256Hashes [hash]⟩

/-- One observable event inside a Blossom upload attempt: a progress
callback invocation, or the minting (successful signing) of an
authorization capability. -/
inductive AEv
  | report (percentage bytesSent : Nat)
  | mint (auth : BlossomAuthorization)
deriving DecidableEq, Repr

namespace Blossom

/-- `src/blossom.rs::build_auth_header` (lines 75-103): build the
capability for `hash` expiring 300 s after `now`, sign it, and base64-encode
the signed event's JSON into a `"Nostr <encoded>"` header value.  A signing
failure maps to `"Failed to sign auth event: e"`.  `HeaderValue::try_from`
only rejects values with bytes outside the visible-ASCII-plus-space range;
`"Nostr "` followed by base64 output is always accepted, so that branch is
infallible here.  Returns the mint event (when signing succeeded) and the
header value. -/
def build_auth_header (sign : Signer) (hash : List Nat) (now : Nat) :
    List AEv × Except String String :=
  match sign (mkAuth hash now) with
  | .error e => ([], .error ("Failed to sign auth event: " ++ e))
  | .ok ev => ([.mint (mkAuth hash now)], .ok ("Nostr " ++ base64Encode ev.json))

/-- One timer tick of the `src/blossom.rs::upload_attempt` polling loop
(lines 221-236): compute the percentage and invoke the callback whenever it
*differs* from the last reported value (note: `!=`, unlike the `>` of
`src/upload.rs`); a callback error aborts with the callback's own error
string.  State is just `last_percentage`. -/
def blossomTick (cb : ProgressCb) (totalSize lastPercentage cur : Nat) :
    Option (Nat × Nat) × Except String Nat :=
  let percentage := percentageOf totalSize cur
  if percentage ≠ lastPercentage then
    match cb percentage cur with
    | .error e => (some (percentage, cur), .error e)
    | .ok _ => (some (percentage, cur), .ok percentage)
  else
    (none, .ok lastPercentage)

/-- The `src/blossom.rs` polling loop over the sampled byte-counter
values; returns the reports issued and the final `last_percentage` (or the
aborting callback error). -/
def runTicksB (cb : ProgressCb) (totalSize : Nat) :
    Nat → List Nat → List (Nat × Nat) × Except String Nat
  | lastPercentage, [] => ([], .ok lastPercentage)
  | lastPercentage, cur :: rest =>
    match blossomTick cb totalSize lastPercentage cur with
    | (rep, .error e) => (rep.toList, .error e)
    | (rep, .ok lp1) =>
      let t := runTicksB cb totalSize lp1 rest
      (rep.toList ++ t.1, t.2)

end Blossom

/-- Outcome of the HTTP exchange of one `src/blossom.rs` upload: `sendErr`
is an `Err` from the request future; `resp` carries the status code, the
result of `response.json::<BlobDescriptor>()` (the descriptor's URL as a
string, meaningful when the status is 200), and the body text returned by
`response.text()` after its `unwrap_or_else` (meaningful otherwise). -/
inductive BResp
  | sendErr (msg : String)
  | resp (status : Nat) (parseResult : Except String String) (text : String)
deriving DecidableEq, Repr

/-- Environment of one `src/blossom.rs` upload attempt (also used for the
plain `upload_blob`): the `server_url.join("upload")` outcome, the
`Timestamp::now()` value read while building the authorization, the
signing capability, the result of `HeaderValue::from_str` on the MIME
string (when one is supplied), the client-builder outcome, the sampled
byte-counter values, the final `bytes_sent` read after the loop, and the
HTTP outcome. -/
structure BEnv where
  joinResult : Except String Unit
  now : Nat
  sign : Signer
  mimeResult : Except String Unit
  clientResult : Except String Unit
  samples : List Nat
  finalBytes : Nat
  response : BResp

namespace Blossom

/-- Response handling shared verbatim by `upload_attempt` (lines 247-258)
and `upload_blob` (lines 305-315): status 200 parses the body into a
`BlobDescriptor` and returns its URL (`"Failed to parse response: e"` on a
parse failure); any other status returns
`"Upload failed with status <status>: <text>"`.  The Rust `StatusCode`
display also carries the canonical reason phrase; the status is rendered
here by its number, which the claims do not depend on. -/
def handleResponse (status : Nat) (parseResult : Except String String)
    (text : String) : Except String String :=
  if status = 200 then
    match parseResult with
    | .error e => .error ("Failed to parse response: " ++ e)
    | .ok url => .ok url
  else
    .error ("Upload failed with status " ++ toString status ++ ": " ++ text)

/-- `src/blossom.rs::upload_attempt` (lines 157-259) as a function of its
environment.  Order of effects follows the source: URL join, the initial
0 % report, authorization building (minting), MIME header validation,
client construction, the polling loop raced against the response (a
transport error returns before any forced report), the forced 100 % report
issued only when the final byte count equals the total *and* the timer had
not already reported 100 %, then response handling.  The event list
collects every callback invocation and minted capability, in order. -/
def upload_attempt (cb : ProgressCb) (sha : List Nat → List Nat)
    (data : List Nat) (mimeType : Option String) (env : BEnv) :
    List AEv × Except String String :=
  match env.joinResult with
  | .error e => ([], .error ("Invalid server URL: " ++ e))
  | .ok _ =>
  match cb 0 0 with
  | .error e => ([.report 0 0], .error e)
  | .ok _ =>
  match build_auth_header env.sign (sha data) env.now with
  | (authEvs, .error e) => (.report 0 0 :: authEvs, .error e)
  | (authEvs, .ok _header) =>
  match (match mimeType with | some _ => env.mimeResult | none => .ok ()) with
  | .error e => (.report 0 0 :: authEvs, .error ("Invalid content type: " ++ e))
  | .ok _ =>
  match env.clientResult with
  | .error e => (.report 0 0 :: authEvs, .error ("Failed to create HTTP client: " ++ e))
  | .ok _ =>
  match runTicksB cb data.length 0 env.samples with
  | (tickReports, .error e) =>
    (.report 0 0 :: authEvs ++ tickReports.map (fun r => .report r.1 r.2), .error e)
  | (tickReports, .ok lastPercentage) =>
    match env.response with
    | .sendErr e =>
      (.report 0 0 :: authEvs ++ tickReports.map (fun r => AEv.report r.1 r.2),
        .error ("Upload request failed: " ++ e))
    | .resp status parseResult text =>
      if env.finalBytes = data.length ∧ lastPercentage < 100 then
        match cb 100 data.length with
        | .error e =>
          ((.report 0 0 :: authEvs ++ tickReports.map (fun r => AEv.report r.1 r.2))
            ++ [.report 100 data.length], .error e)
        | .ok _ =>
          ((.report 0 0 :: authEvs ++ tickReports.map (fun r => AEv.report r.1 r.2))
            ++ [.report 100 data.length], handleResponse status parseResult text)
      else
        (.report 0 0 :: authEvs ++ tickReports.map (fun r => AEv.report r.1 r.2),
          handleResponse status parseResult text)

/-- `src/blossom.rs::upload_blob` (lines 262-316): the simple upload
without progress tracking — URL join, hash, authorization, MIME check,
client, one `send`, response handling. -/
def upload_blob (sha : List Nat → List Nat) (data : List Nat)
    (mimeType : Option String) (env : BEnv) : List AEv × Except String String :=
  match env.joinResult with
  | .error e => ([], .error ("Invalid server URL: " ++ e))
  | .ok _ =>
  match build_auth_header env.sign (sha data) env.now with
  | (authEvs, .error e) => (authEvs, .error e)
  | (authEvs, .ok _header) =>
  match (match mimeType with | some _ => env.mimeResult | none => .ok ()) with
  | .error e => (authEvs, .error ("Invalid content type: " ++ e))
  | .ok _ =>
  match env.clientResult with
  | .error e => (authEvs, .error ("Failed to create HTTP client: " ++ e))
  | .ok _ =>
  match env.response with
  | .sendErr e => (authEvs, .error ("Upload request failed: " ++ e))
  | .resp status parseResult text => (authEvs, handleResponse status parseResult text)

/-- `src/blossom.rs::upload_blob_with_progress` (lines 113-154): the retry
loop around `upload_attempt`; `retry_count` and `retry_spacing` are
already unwrapped (their defaults are 0 and 1 s). -/
def upload_blob_with_progress (cb : ProgressCb) (sha : List Nat → List Nat)
    (data : List Nat) (mimeType : Option String) (envs : Nat → BEnv)
    (retryCount : Nat) : List (REv AEv) × Except String String :=
  retryRun (fun i => upload_attempt cb sha data mimeType (envs i))
    "No upload attempts were made" retryCount

end Blossom

/-- One observable event of a failover controller: a server entry whose
URL failed to parse (skipped), one upload call for a server (with the
events it produced), or the progress reset `progress_callback(Some(0),
Some(0))` issued after a failed server (its result is discarded). -/
inductive FoEv (τ : Type)
  | invalid (i : Nat)
  | upload (i : Nat) (evs : List τ)
  | reset
deriving DecidableEq, Repr

/-- The claimed structure of a progress-failover trace starting at server
index `i`: servers are visited in list order; an entry whose URL fails to
parse contributes only its `invalid` event (no upload, no retry); a
successful upload is the last event of the whole trace (short-circuit); a
failed upload is immediately followed by the progress reset and then the
next server's events. -/
inductive FoShape {τ : Type} : Nat → List (FoEv τ) → Prop
  | nil (i : Nat) : FoShape i []
  | skip (i : Nat) (evs : List (FoEv τ)) :
      FoShape (i + 1) evs → FoShape i (.invalid i :: evs)
  | success (i : Nat) (uevs : List τ) : FoShape i [.upload i uevs]
  | fail (i : Nat) (uevs : List τ) (evs : List (FoEv τ)) :
      FoShape (i + 1) evs → FoShape i (.upload i uevs :: .reset :: evs)

/-- Same structure for the plain (no-observer) failover loop: identical
except that no reset event follows a failed upload. -/
inductive FoShapeS {τ : Type} : Nat → List (FoEv τ) → Prop
  | nil (i : Nat) : FoShapeS i []
  | skip (i : Nat) (evs : List (FoEv τ)) :
      FoShapeS (i + 1) evs → FoShapeS i (.invalid i :: evs)
  | success (i : Nat) (uevs : List τ) : FoShapeS i [.upload i uevs]
  | fail (i : Nat) (uevs : List τ) (evs : List (FoEv τ)) :
      FoShapeS (i + 1) evs → FoShapeS i (.upload i uevs :: evs)

/-- The failover loop of
`src/blossom.rs::upload_blob_with_progress_and_failover` (lines 375-415):
iterate the server list in order; an entry whose URL fails to parse
records `"Invalid server URL: e"` as the last error and is skipped; a
successful upload returns immediately; a failed upload records its error,
resets the caller's progress to 0 %, and moves on; exhaustion returns
`"All Blossom servers failed. Last error: <last>"` (where `last` starts as
`"No servers available"`).  `parse` is `Url::parse`; `f i` is the upload
call for the `i`-th listed server. -/
def failoverP {τ : Type} (parse : String → Except String Unit)
    (f : Nat → List τ × Except String String) :
    List String → Nat → String → List (FoEv τ) × Except String String
  | [], _, lastError =>
    ([], .error ("All Blossom servers failed. Last error: " ++ lastError))
  | s :: rest, i, _lastError =>
    match parse s with
    | .error e =>
      let t := failoverP parse f rest (i + 1) ("Invalid server URL: " ++ e)
      (.invalid i :: t.1, t.2)
    | .ok _ =>
      match f i with
      | (evs, .ok u) => ([.upload i evs], .ok u)
      | (evs, .error e) =>
        let t := failoverP parse f rest (i + 1) e
        (.upload i evs :: .reset :: t.1, t.2)

/-- The failover loop of `src/blossom.rs::upload_blob_with_failover`
(lines 320-359): identical to `failoverP` except that there is no progress
observer, hence no reset event after a failed server. -/
def failoverS {τ : Type} (parse : String → Except String Unit)
    (f : Nat → List τ × Except String String) :
    List String → Nat → String → List (FoEv τ) × Except String String
  | [], _, lastError =>
    ([], .error ("All Blossom servers failed. Last error: " ++ lastError))
  | s :: rest, i, _lastError =>
    match parse s with
    | .error e =>
      let t := failoverS parse f rest (i + 1) ("Invalid server URL: " ++ e)
      (.invalid i :: t.1, t.2)
    | .ok _ =>
      match f i with
      | (evs, .ok u) => ([.upload i evs], .ok u)
      | (evs, .error e) =>
        let t := failoverS parse f rest (i + 1) e
        (.upload i evs :: t.1, t.2)

namespace Blossom

/-- `src/blossom.rs::upload_blob_with_progress_and_failover`
(lines 363-416): the failover loop over per-server retry-wrapped progress
uploads.  `envs i j` is the environment of attempt `j` against the `i`-th
listed server. -/
def upload_blob_with_progress_and_failover (cb : ProgressCb)
    (sha : List Nat → List Nat) (data : List Nat) (mimeType : Option String)
    (envs : Nat → Nat → BEnv) (parse : String → Except String Unit)
    (servers : List String) (retryCount : Nat) :
    List (FoEv (REv AEv)) × Except String String :=
  failoverP parse
    (fun i => upload_blob_with_progress cb sha data mimeType (envs i) retryCount)
    servers 0 "No servers available"

/-- `src/blossom.rs::upload_blob_with_failover` (lines 320-359): the
failover loop over plain `upload_blob` calls. -/
def upload_blob_with_failover (sha : List Nat → List Nat) (data : List Nat)
    (mimeType : Option String) (envs : Nat → BEnv)
    (parse : String → Except String Unit) (servers : List String) :
    List (FoEv AEv) × Except String String :=
  failoverS parse (fun i => upload_blob sha data mimeType (envs i))
    servers 0 "No servers available"

end Blossom

/-! ## Chunked streaming source (`ProgressTrackingStream`) -/

/-- The chunk producer of `src/upload.rs::ProgressTrackingStream::new`
(lines 119-145; the `src/blossom.rs` copy at lines 24-49 is the same with
`chunk_size` fixed to `64 * 1024`): starting at position 0, repeatedly
slice `data[position .. min(position + chunk_size, len)]` and advance by
the chunk's length, until the buffer is exhausted.  The list returned is
the sequence of chunks sent through the bounded channel when the consumer
drains it completely.  For `chunkSize = 0` the source loop would never
terminate (the position never advances); the model returns `[]` there and
every theorem assumes `0 < chunkSize`. -/
def chunksFrom {α : Type} (chunkSize : Nat) (data : List α) : List (List α) :=
  if _h : chunkSize = 0 ∨ data.length = 0 then []
  else data.take chunkSize :: chunksFrom chunkSize (data.drop chunkSize)
termination_by data.length
decreasing_by
  simp only [List.length_drop]
  omega

/-- Spec-side description of the produced chunk lengths for a buffer of
`n` bytes and chunk bound `C`: `ceil(n / C)` chunks, the `i`-th of length
`min C (n - i * C)`. -/
def chunkSizes (C n : Nat) : List Nat :=
  (List.range ((n + C - 1) / C)).map (fun i => min C (n - i * C))

/-- The byte counter after the consumer (`poll_next`, lines 151-169) has
taken `k` chunks: the counter starts at 0 and each delivered chunk adds its
byte length under the mutex. -/
def counterAfter {α : Type} (chunkSize : Nat) (data : List α) (k : Nat) : Nat :=
  ((chunksFrom chunkSize data).take k).foldl (fun acc c => acc + c.length) 0

/-! ## Encryption module (`src/crypto.rs`) -/

/-- Outcome of a Rust function that can also panic: `fatal` models a
panic (here only `GenericArray::from_slice` on a slice of the wrong
length). -/
inductive RustResult (ε α : Type)
  | ok (a : α)
  | err (e : ε)
  | fatal (msg : String)
deriving DecidableEq, Repr

/-- The `CryptoError` enum of `src/crypto.rs` (lines 22-39). -/
inductive CryptoError
  | randomGenerationError
  | hexEncodingError (msg : String)
  | aesGcmError (msg : String)
  | genericError (msg : String)
deriving DecidableEq, Repr

/-- `EncryptionParams` of `src/crypto.rs` (lines 13-19): key and nonce as
hex strings. -/
structure EncryptionParams where
  key : String
  nonce : String
deriving DecidableEq, Repr

/-- Value of a hex digit, as accepted by the `hex` crate. -/
def hexDigitVal (c : Char) : Option Nat :=
  if '0' ≤ c ∧ c ≤ '9' then some (c.toNat - '0'.toNat)
  else if 'a' ≤ c ∧ c ≤ 'f' then some (c.toNat - 'a'.toNat + 10)
  else if 'A' ≤ c ∧ c ≤ 'F' then some (c.toNat - 'A'.toNat + 10)
  else none

/-- `hex::decode` over a character list: two hex digits per byte; an odd
length or a non-hex character fails. -/
def hexDecodeList : List Char → Option (List Nat)
  | [] => some []
  | [_] => none
  | c1 :: c2 :: rest =>
    match hexDigitVal c1, hexDigitVal c2, hexDecodeList rest with
    | some hi, some lo, some bs => some ((hi * 16 + lo) :: bs)
    | _, _, _ => none

/-- `hex::decode` on a string. -/
def hexDecode (s : String) : Option (List Nat) := hexDecodeList s.data

/-- The external AES-256-GCM primitive
(`AesGcm::<Aes256, U16>::encrypt_in_place_detached`, from the `aes_gcm`
crate, outside this repository): given key, nonce and plaintext it
produces the equal-length ciphertext and the 16-byte authentication tag,
or the crate's error (raised only beyond the GCM payload-length bound).
The length laws are the crate's documented contract. -/
structure AeadCipher where
  enc : List Nat → List Nat → List Nat → Except String (List Nat × List Nat)
  enc_ct_length : ∀ key nonce data ct tag,
    enc key nonce data = .ok (ct, tag) → ct.length = data.length
  enc_tag_length : ∀ key nonce data ct tag,
    enc key nonce data = .ok (ct, tag) → tag.length = 16

/-- `src/crypto.rs::encrypt_data` (lines 85-113): decode key and nonce
from hex (each failure is `CryptoError::HexEncodingError` with the fixed
message); `GenericArray::from_slice(&key_bytes)` panics unless the slice
has exactly 32 bytes, and `GenericArray::from_slice(&nonce_bytes)` unless
exactly 16; encrypt in place; append the tag to the ciphertext. -/
def encrypt_data (cipher : AeadCipher) (data : List Nat)
    (params : EncryptionParams) : RustResult CryptoError (List Nat) :=
  match hexDecode params.key with
  | none => .err (.hexEncodingError "Invalid key")
  | some keyBytes =>
  match hexDecode params.nonce with
  | none => .err (.hexEncodingError "Invalid nonce")
  | some nonceBytes =>
  if keyBytes.length ≠ 32 then
    .fatal "GenericArray::from_slice: slice length mismatch"
  else if nonceBytes.length ≠ 16 then
    .fatal "GenericArray::from_slice: slice length mismatch"
  else
    match cipher.enc keyBytes nonceBytes data with
    | .error e => .err (.aesGcmError e)
    | .ok (ct, tag) => .ok (ct ++ tag)

/-! ## Spec-side predicates and concrete instances used by the claims -/

/-- The progress-report discipline claimed for one attempt (claim C4,
taken from the spec's words): reports start with the mandatory 0 % report
and every later report strictly exceeds the previous one — the claim's
only other exception, a forced 100 % report "issued if the transfer
completed without the timer having observed it", is itself strictly above
every earlier report whenever it is the only permitted duplicate source,
so under the claim the whole percentage sequence is strictly
increasing. -/
def C4Allowed (percentages : List Nat) : Prop :=
  match percentages with
  | [] => True
  | p0 :: _ => p0 = 0 ∧ List.Chain' (· < ·) percentages

/-- The reports contained in a Blossom attempt event list. -/
def reportsOf : List AEv → List (Nat × Nat)
  | [] => []
  | .report p b :: rest => (p, b) :: reportsOf rest
  | .mint _ :: rest => reportsOf rest

/-- The minted capabilities contained in a Blossom attempt event list. -/
def mintsOf : List AEv → List BlossomAuthorization
  | [] => []
  | .report _ _ :: rest => mintsOf rest
  | .mint a :: rest => a :: mintsOf rest

/-- A progress callback that always accepts. -/
def okCb : ProgressCb := fun _ _ => .ok ()

/-- Concrete `src/upload.rs` attempt environment in which the transport
flushes all bytes before the first timer tick and the server answers
successfully: used to exhibit the duplicated terminal 100 % report. -/
def envDup : UEnv :=
  ⟨.ok "hdr", .ok (), true, [2], .parsed false "" (some (some "u"))⟩

/-- Concrete `src/upload.rs` attempt environment in which the transport
stops flushing after 50 % (the counter stays at 50 bytes of 100 from the
first tick on). -/
def envStall : UEnv :=
  ⟨.ok "hdr", .ok (), true, [50, 50, 50], .parsed false "" (some (some "u"))⟩

/-- A concrete signer for witnesses: signs everything, with a fixed
2-byte JSON serialization. -/
def signW : Signer := fun _ => .ok ⟨[77, 97]⟩

/-- Concrete successful Blossom attempt environment: 10 bytes total, the
timer sees 5 then 10 bytes, the final read is 10, the server answers 200
with a parsable descriptor. -/
def bEnvOk : BEnv :=
  ⟨.ok (), 1000, signW, .ok (), .ok (), [5, 10], 10, .resp 200 (.ok "https://b/x") "t"⟩

/-- Concrete always-failing Blossom attempt environment (server answers
500). -/
def bEnvFail : BEnv :=
  ⟨.ok (), 1000, signW, .ok (), .ok (), [], 0, .resp 500 (.error "nope") "boom"⟩

/-- A concrete cipher satisfying the AES-GCM interface laws, used to
instantiate theorems about `encrypt_data` at concrete inputs. -/
def dummyCipher : AeadCipher where
  enc := fun _ _ d => .ok (d, List.replicate 16 0)
  enc_ct_length := by
    intro key nonce data ct tag h
    injection h with h2
    injection h2 with h3 h4
    rw [← h3]
  enc_tag_length := by
    intro key nonce data ct tag h
    injection h with h2
    injection h2 with h3 h4
    rw [← h4]
    simp

/-- Concrete 10-byte payload for witnesses. -/
def dataW : List Nat := [1, 2, 3, 4, 5, 6, 7, 8, 9, 10]

/-- Concrete stand-in for the external SHA-256 function in witnesses. -/
def shaW : List Nat → List Nat := fun d => d

/-- Concrete stand-in for `Url::parse` in witnesses: only the well-formed
server string parses. -/
def parseW : String → Except String Unit := fun s =>
  if s = "https://good" then .ok () else .error "relative URL without a base"

/-- Concrete per-server, per-attempt environments for witnesses: every
server behaves like `bEnvOk`. -/
def envsW : Nat → Nat → BEnv := fun _ _ => bEnvOk

/-- A progress callback that always aborts with the fixed message
`stop`. -/
def abortCb : ProgressCb := fun _ _ => .error "stop"

/-! ## Lemmas about the chunk producer -/

theorem chunksFrom_nil {α : Type} (C : Nat) : chunksFrom C ([] : List α) = [] := by
  rw [chunksFrom]
  simp

theorem chunksFrom_cons {α : Type} (C : Nat) (hC : 0 < C) (data : List α)
    (hd : data ≠ []) :
    chunksFrom C data = data.take C :: chunksFrom C (data.drop C) := by
  have hcond : ¬ (C = 0 ∨ data.length = 0) := by
    push_neg
    exact ⟨hC.ne', fun h => hd (List.length_eq_zero.mp h)⟩
  rw [chunksFrom, dif_neg hcond]

theorem chunksFrom_flatten_bounded {α : Type} (C : Nat) (hC : 0 < C) :
    ∀ (n : Nat) (data : List α), data.length ≤ n →
      (chunksFrom C data).flatten = data := by
  intro n
  induction n with
  | zero =>
    intro data h
    have := List.length_eq_zero.mp (Nat.le_zero.mp h)
    subst this
    simp [chunksFrom_nil]
  | succ n ih =>
    intro data h
    rcases eq_or_ne data [] with rfl | hd
    · simp [chunksFrom_nil]
    · rw [chunksFrom_cons C hC data hd]
      have hlen : (data.drop C).length ≤ n := by
        simp only [List.length_drop]
        have : 0 < data.length := List.length_pos.mpr hd
        omega
      simp only [List.flatten_cons, ih _ hlen]
      exact List.take_append_drop C data

/-- The chunks concatenate back to the payload: production is in strict
offset order with no gaps or overlaps. -/
theorem chunksFrom_flatten {α : Type} (C : Nat) (hC : 0 < C) (data : List α) :
    (chunksFrom C data).flatten = data :=
  chunksFrom_flatten_bounded C hC data.length data le_rfl

theorem ceil_div_succ {C n : Nat} (hC : 0 < C) (hn : 0 < n) :
    (n + C - 1) / C = (n - 1) / C + 1 := by
  have h1 : n + C - 1 = (n - 1) + C := by omega
  rw [h1, Nat.add_div_right _ hC]

theorem ceil_div_drop {C n : Nat} (hC : 0 < C) (hn : 0 < n) :
    (n - C + C - 1) / C = (n - 1) / C := by
  rcases le_or_lt n C with h | h
  · have h1 : n - C = 0 := by omega
    rw [h1]
    have h2 : 0 + C - 1 < C := by omega
    have h3 : n - 1 < C := by omega
    rw [Nat.div_eq_of_lt h2, Nat.div_eq_of_lt h3]
  · have h1 : n - C + C - 1 = n - 1 := by omega
    rw [h1]

theorem chunksFrom_length_bounded {α : Type} (C : Nat) (hC : 0 < C) :
    ∀ (n : Nat) (data : List α), data.length ≤ n →
      (chunksFrom C data).length = (data.length + C - 1) / C := by
  intro n
  induction n with
  | zero =>
    intro data h
    have := List.length_eq_zero.mp (Nat.le_zero.mp h)
    subst this
    simp only [chunksFrom_nil, List.length_nil]
    rw [Nat.div_eq_of_lt (by omega : 0 + C - 1 < C)]
  | succ n ih =>
    intro data h
    rcases eq_or_ne data [] with rfl | hd
    · simp only [chunksFrom_nil, List.length_nil]
      rw [Nat.div_eq_of_lt (by omega : 0 + C - 1 < C)]
    · have hpos : 0 < data.length := List.length_pos.mpr hd
      have hlen : (data.drop C).length ≤ n := by
        simp only [List.length_drop]
        omega
      rw [chunksFrom_cons C hC data hd]
      simp only [List.length_cons, ih _ hlen, List.length_drop]
      rw [ceil_div_drop hC hpos, ceil_div_succ hC hpos]

/-- The number of produced chunks is `ceil(N / C)`. -/
theorem chunksFrom_length {α : Type} (C : Nat) (hC : 0 < C) (data : List α) :
    (chunksFrom C data).length = (data.length + C - 1) / C :=
  chunksFrom_length_bounded C hC data.length data le_rfl

theorem chunkSizes_zero (C : Nat) : chunkSizes C 0 = [] := by
  have : 0 < C ∨ C = 0 := by omega
  rcases this with h | h
  · unfold chunkSizes
    rw [Nat.div_eq_of_lt (by omega : 0 + C - 1 < C)]
    simp
  · simp [chunkSizes, h]

theorem chunkSizes_succ {C n : Nat} (hC : 0 < C) (hn : 0 < n) :
    chunkSizes C n = min C n :: chunkSizes C (n - C) := by
  unfold chunkSizes
  rw [ceil_div_succ hC hn, ← ceil_div_drop hC hn, List.range_succ_eq_map]
  simp only [List.map_cons, Nat.zero_mul, Nat.sub_zero, List.map_map]
  congr 1
  apply List.map_congr_left
  intro i _
  simp only [Function.comp_apply, Nat.succ_eq_add_one]
  have : n - (i + 1) * C = n - C - i * C := by
    rw [Nat.add_mul, Nat.one_mul, Nat.sub_sub, Nat.add_comm]
  rw [this]

theorem chunksFrom_map_length_bounded {α : Type} (C : Nat) (hC : 0 < C) :
    ∀ (n : Nat) (data : List α), data.length ≤ n →
      (chunksFrom C data).map List.length = chunkSizes C data.length := by
  intro n
  induction n with
  | zero =>
    intro data h
    have := List.length_eq_zero.mp (Nat.le_zero.mp h)
    subst this
    simp [chunksFrom_nil, chunkSizes_zero]
  | succ n ih =>
    intro data h
    rcases eq_or_ne data [] with rfl | hd
    · simp [chunksFrom_nil, chunkSizes_zero]
    · have hpos : 0 < data.length := List.length_pos.mpr hd
      have hlen : (data.drop C).length ≤ n := by
        simp only [List.length_drop]
        omega
      rw [chunksFrom_cons C hC data hd, chunkSizes_succ hC hpos]
      simp only [List.map_cons, ih _ hlen, List.length_take, List.length_drop]

/-- The produced chunk lengths are exactly `chunkSizes`. -/
theorem chunksFrom_map_length {α : Type} (C : Nat) (hC : 0 < C) (data : List α) :
    (chunksFrom C data).map List.length = chunkSizes C data.length :=
  chunksFrom_map_length_bounded C hC data.length data le_rfl

theorem sum_take_le (l : List Nat) (k : Nat) : (l.take k).sum ≤ l.sum := by
  induction l generalizing k with
  | nil => simp
  | cons a l ih =>
    cases k with
    | zero => simp
    | succ k =>
      simp only [List.take_succ_cons, List.sum_cons]
      exact Nat.add_le_add_left (ih k) a

theorem sum_take_mono (l : List Nat) {j k : Nat} (h : j ≤ k) :
    (l.take j).sum ≤ (l.take k).sum := by
  have : l.take j = (l.take k).take j := by
    rw [List.take_take, Nat.min_eq_left h]
  rw [this]
  exact sum_take_le (l.take k) j

theorem counterAfter_eq_sum {α : Type} (C : Nat) (data : List α) (k : Nat) :
    counterAfter C data k = (((chunksFrom C data).take k).map List.length).sum := by
  unfold counterAfter
  rw [List.sum_eq_foldl, List.foldl_map]

/-- The counter starts at 0. -/
theorem counterAfter_zero {α : Type} (C : Nat) (data : List α) :
    counterAfter C data 0 = 0 := rfl

/-- Delivering one more chunk adds exactly its byte length. -/
theorem counterAfter_succ {α : Type} (C : Nat) (data : List α) (k : Nat)
    (h : k < (chunksFrom C data).length) :
    counterAfter C data (k + 1)
      = counterAfter C data k + ((chunksFrom C data).get ⟨k, h⟩).length := by
  rw [counterAfter_eq_sum, counterAfter_eq_sum, List.take_succ,
    List.getElem?_eq_getElem h]
  simp only [Option.toList_some, List.map_append, List.sum_append, List.map_cons,
    List.map_nil, List.sum_cons, List.sum_nil, List.get_eq_getElem]
  omega

/-- The counter never decreases. -/
theorem counterAfter_mono {α : Type} (C : Nat) (data : List α) {j k : Nat}
    (h : j ≤ k) : counterAfter C data j ≤ counterAfter C data k := by
  rw [counterAfter_eq_sum, counterAfter_eq_sum, List.map_take, List.map_take]
  exact sum_take_mono _ h

/-- The full sum of chunk lengths is the payload size. -/
theorem chunkLengths_sum {α : Type} (C : Nat) (hC : 0 < C) (data : List α) :
    ((chunksFrom C data).map List.length).sum = data.length := by
  rw [← List.length_flatten, chunksFrom_flatten C hC]

/-- The counter never exceeds the payload size. -/
theorem counterAfter_le {α : Type} (C : Nat) (hC : 0 < C) (data : List α)
    (k : Nat) : counterAfter C data k ≤ data.length := by
  rw [counterAfter_eq_sum, List.map_take]
  calc (((chunksFrom C data).map List.length).take k).sum
      ≤ ((chunksFrom C data).map List.length).sum := sum_take_le _ k
    _ = data.length := chunkLengths_sum C hC data

/-- After all chunks are consumed the counter equals the payload size. -/
theorem counterAfter_final {α : Type} (C : Nat) (hC : 0 < C) (data : List α) :
    counterAfter C data (chunksFrom C data).length = data.length := by
  rw [counterAfter_eq_sum, List.take_length]
  exact chunkLengths_sum C hC data

/-! ## Lemmas about the retry controller -/

theorem countAttempts_append {τ : Type} (a b : List (REv τ)) :
    countAttempts (a ++ b) = countAttempts a + countAttempts b := by
  induction a with
  | nil => simp [countAttempts]
  | cons x rest ih =>
    cases x with
    | sleep => simp [countAttempts, ih]
    | attemptEvs i evs => simp [countAttempts, ih]; omega

theorem countSleeps_append {τ : Type} (a b : List (REv τ)) :
    countSleeps (a ++ b) = countSleeps a + countSleeps b := by
  induction a with
  | nil => simp [countSleeps]
  | cons x rest ih =>
    cases x with
    | sleep => simp [countSleeps, ih]; omega
    | attemptEvs i evs => simp [countSleeps, ih]

theorem retryGo_attempts_le {τ E U : Type} (f : Nat → List τ × Except E U)
    (noneErr : E) :
    ∀ (remaining i : Nat) (last : Option E),
      countAttempts (retryGo f noneErr i remaining last).1 ≤ remaining := by
  intro remaining
  induction remaining with
  | zero => intro i last; simp [retryGo, countAttempts]
  | succ remaining ih =>
    intro i last
    rw [retryGo]
    rcases hf : f i with ⟨evs, res⟩
    cases res with
    | ok u =>
      simp only [countAttempts_append]
      have h1 : countAttempts (τ := τ) (if i = 0 then [] else [.sleep]) = 0 := by
        rcases eq_or_ne i 0 with h | h <;> simp [h, countAttempts]
      simp [h1, countAttempts]
    | error e =>
      simp only [countAttempts_append]
      have h1 : countAttempts (τ := τ) (if i = 0 then [] else [.sleep]) = 0 := by
        rcases eq_or_ne i 0 with h | h <;> simp [h, countAttempts]
      have h2 := ih (i + 1) (some e)
      simp [h1, countAttempts]
      omega

theorem retryGo_allFail {τ E U : Type} (f : Nat → List τ × Except E U)
    (noneErr : E) (errOf : Nat → E)
    (hfail : ∀ j, (f j).2 = .error (errOf j)) :
    ∀ (remaining i : Nat) (last : Option E),
      retryGo f noneErr i (remaining + 1) last
        = (allFailTrace f i (remaining + 1), .error (errOf (i + remaining))) := by
  intro remaining
  induction remaining with
  | zero =>
    intro i last
    rw [retryGo, allFailTrace]
    rcases hf : f i with ⟨evs, res⟩
    have hei := hfail i
    rw [hf] at hei
    cases res with
    | ok u => simp at hei
    | error e =>
      injection hei with he
      subst he
      simp [retryGo, allFailTrace, Option.getD]
  | succ remaining ih =>
    intro i last
    rw [retryGo, allFailTrace]
    rcases hf : f i with ⟨evs, res⟩
    have hei := hfail i
    rw [hf] at hei
    cases res with
    | ok u => simp at hei
    | error e =>
      injection hei with he
      subst he
      have harith : i + 1 + remaining = i + (remaining + 1) := by omega
      simp [ih (i + 1) (some (errOf i)), harith]

theorem allFailTrace_attempts {τ E U : Type} (f : Nat → List τ × Except E U) :
    ∀ (remaining i : Nat), countAttempts (allFailTrace f i remaining) = remaining := by
  intro remaining
  induction remaining with
  | zero => intro i; simp [allFailTrace, countAttempts]
  | succ remaining ih =>
    intro i
    rw [allFailTrace, countAttempts_append]
    have h1 : countAttempts (τ := τ) (if i = 0 then [] else [.sleep]) = 0 := by
      rcases eq_or_ne i 0 with h | h <;> simp [h, countAttempts]
    simp [h1, countAttempts, ih]

theorem allFailTrace_sleeps {τ E U : Type} (f : Nat → List τ × Except E U) :
    ∀ (remaining i : Nat), 0 < i →
      countSleeps (allFailTrace f i remaining) = remaining := by
  intro remaining
  induction remaining with
  | zero => intro i _; simp [allFailTrace, countSleeps]
  | succ remaining ih =>
    intro i hi
    rw [allFailTrace, countSleeps_append]
    have h1 : countSleeps (τ := τ) (if i = 0 then [] else [.sleep]) = 1 := by
      have : i ≠ 0 := by omega
      simp [this, countSleeps]
    simp [h1, countSleeps, ih (i + 1) (by omega)]
    omega

theorem allFailTrace_sleeps_zero {τ E U : Type} (f : Nat → List τ × Except E U)
    (remaining : Nat) :
    countSleeps (allFailTrace f 0 (remaining + 1)) = remaining := by
  rw [allFailTrace, countSleeps_append]
  simp [countSleeps, allFailTrace_sleeps f remaining 1 (by omega)]

theorem retryGo_firstSuccess {τ E U : Type} (f : Nat → List τ × Except E U)
    (noneErr : E) (k : Nat) (u : U) (hk : (f k).2 = .ok u)
    (hfail : ∀ j, j < k → ∃ e, (f j).2 = .error e) :
    ∀ (remaining i : Nat) (last : Option E), i ≤ k → k < i + remaining →
      (retryGo f noneErr i remaining last).2 = .ok u
      ∧ countAttempts (retryGo f noneErr i remaining last).1 = k - i + 1
      ∧ ∀ j evs, REv.attemptEvs j evs ∈ (retryGo f noneErr i remaining last).1 → j ≤ k := by
  intro remaining
  induction remaining with
  | zero => intro i last h1 h2; omega
  | succ remaining ih =>
    intro i last h1 h2
    rw [retryGo]
    rcases eq_or_ne i k with heq | hne
    · subst heq
      rcases hf : f i with ⟨evs, res⟩
      rw [hf] at hk
      cases res with
      | error e => simp at hk
      | ok u2 =>
        injection hk with hu
        subst hu
        refine ⟨by simp, ?_, ?_⟩
        · rw [countAttempts_append]
          have hn1 : countAttempts (τ := τ) (if i = 0 then [] else [.sleep]) = 0 := by
            rcases eq_or_ne i 0 with h | h <;> simp [h, countAttempts]
          simp [hn1, countAttempts]
        · intro j evs2 hmem
          simp only at hmem
          rcases List.mem_append.mp hmem with h | h
          · rcases eq_or_ne i 0 with h0 | h0 <;> simp [h0] at h
          · simp at h
            omega
    · have hik : i < k := by omega
      rcases hfail i hik with ⟨e, hfe⟩
      rcases hf : f i with ⟨evs, res⟩
      rw [hf] at hfe
      cases res with
      | ok u2 => simp at hfe
      | error e2 =>
        simp only at hfe
        rcases ih (i + 1) (some e2) (by omega) (by omega) with ⟨hres, hcnt, hmem⟩
        refine ⟨by simp [hres], ?_, ?_⟩
        · simp only [countAttempts_append]
          have hpre : countAttempts (τ := τ) (if i = 0 then [] else [.sleep]) = 0 := by
            rcases eq_or_ne i 0 with h | h <;> simp [h, countAttempts]
          simp [hpre, countAttempts, hcnt]
          omega
        · intro j evs2 hm
          simp only at hm
          rcases List.mem_append.mp hm with h | h
          · rcases eq_or_ne i 0 with h0 | h0 <;> simp [h0] at h
          · rcases List.mem_cons.mp h with h | h
            · cases h; omega
            · exact hmem j evs2 h

/-! ## Lemmas about the failover controllers -/

theorem failoverP_shape {τ : Type} (parse : String → Except String Unit)
    (f : Nat → List τ × Except String String) :
    ∀ (servers : List String) (i : Nat) (last : String),
      FoShape i (failoverP parse f servers i last).1 := by
  intro servers
  induction servers with
  | nil => intro i last; exact FoShape.nil i
  | cons s rest ih =>
    intro i last
    rw [failoverP]
    rcases hp : parse s with e | hu
    · exact FoShape.skip i _ (ih (i + 1) _)
    · rcases hf : f i with ⟨evs, res⟩
      cases res with
      | ok u => exact FoShape.success i evs
      | error e => exact FoShape.fail i evs _ (ih (i + 1) _)

theorem failoverS_shape {τ : Type} (parse : String → Except String Unit)
    (f : Nat → List τ × Except String String) :
    ∀ (servers : List String) (i : Nat) (last : String),
      FoShapeS i (failoverS parse f servers i last).1 := by
  intro servers
  induction servers with
  | nil => intro i last; exact FoShapeS.nil i
  | cons s rest ih =>
    intro i last
    rw [failoverS]
    rcases hp : parse s with e | hu
    · exact FoShapeS.skip i _ (ih (i + 1) _)
    · rcases hf : f i with ⟨evs, res⟩
      cases res with
      | ok u => exact FoShapeS.success i evs
      | error e => exact FoShapeS.fail i evs _ (ih (i + 1) _)

theorem failoverP_upload_idx_ge {τ : Type} (parse : String → Except String Unit)
    (f : Nat → List τ × Except String String) :
    ∀ (servers : List String) (i : Nat) (last : String) (j : Nat) (evs : List τ),
      FoEv.upload j evs ∈ (failoverP parse f servers i last).1 → i ≤ j := by
  intro servers
  induction servers with
  | nil => intro i last j evs h; simp [failoverP] at h
  | cons s rest ih =>
    intro i last j evs h
    rw [failoverP] at h
    rcases hp : parse s with e | hu <;> rw [hp] at h
    · rcases List.mem_cons.mp h with h | h
      · cases h
      · exact Nat.le_of_succ_le (ih (i + 1) _ j evs h)
    · rcases hf : f i with ⟨evs2, res⟩
      rw [hf] at h
      cases res with
      | ok u =>
        simp only [List.mem_singleton] at h
        cases h
        exact le_rfl
      | error e =>
        rcases List.mem_cons.mp h with h | h
        · cases h; exact le_rfl
        · rcases List.mem_cons.mp h with h | h
          · cases h
          · exact Nat.le_of_succ_le (ih (i + 1) _ j evs h)

/-- A server entry whose URL fails to parse triggers no upload call at
all: no `upload` event for its index appears anywhere in the trace. -/
theorem failoverP_invalid_skipped {τ : Type} (parse : String → Except String Unit)
    (f : Nat → List τ × Except String String) :
    ∀ (servers : List String) (i : Nat) (last : String) (k : Nat) (s : String)
      (e : String), servers[k]? = some s → parse s = .error e →
      ∀ evs, FoEv.upload (i + k) evs ∉ (failoverP parse f servers i last).1 := by
  intro servers
  induction servers with
  | nil => intro i last k s e hs; simp at hs
  | cons s0 rest ih =>
    intro i last k s e hs hpe evs hmem
    rw [failoverP] at hmem
    cases k with
    | zero =>
      rw [List.getElem?_cons_zero] at hs
      injection hs with hs0
      subst hs0
      rw [hpe] at hmem
      rcases List.mem_cons.mp hmem with h | h
      · cases h
      · have := failoverP_upload_idx_ge parse f rest (i + 1) _ _ _ h
        omega
    | succ k =>
      rw [List.getElem?_cons_succ] at hs
      have harith : i + (k + 1) = (i + 1) + k := by omega
      rcases hp : parse s0 with e0 | hu <;> rw [hp] at hmem
      · rcases List.mem_cons.mp hmem with h | h
        · cases h
        · rw [harith] at h
          exact ih (i + 1) _ k s e hs hpe evs h
      · rcases hf : f i with ⟨evs2, res⟩
        rw [hf] at hmem
        cases res with
        | ok u =>
          simp only [List.mem_singleton] at hmem
          cases hmem
        | error e2 =>
          rcases List.mem_cons.mp hmem with h | h
          · cases h
          · rcases List.mem_cons.mp h with h | h
            · cases h
            · rw [harith] at h
              exact ih (i + 1) _ k s e hs hpe evs h

/-- First success short-circuits: if the server at absolute index `k`
parses and its upload succeeds, while every earlier server either fails to
parse or fails to upload, the failover returns that upload's result and no
server after `k` is contacted. -/
theorem failoverP_firstSuccess {τ : Type} (parse : String → Except String Unit)
    (f : Nat → List τ × Except String String) (k : Nat) (u : String)
    (hku : (f k).2 = .ok u) :
    ∀ (servers : List String) (i : Nat) (last : String),
      i ≤ k →
      (∃ sk, servers[k - i]? = some sk ∧ parse sk = .ok ()) →
      (∀ j, i ≤ j → j < k →
        (∃ s e, servers[j - i]? = some s ∧ parse s = .error e)
        ∨ (∃ e, (f j).2 = .error e)) →
      (failoverP parse f servers i last).2 = .ok u
      ∧ ∀ j evs, FoEv.upload j evs ∈ (failoverP parse f servers i last).1 → j ≤ k := by
  intro servers
  induction servers with
  | nil =>
    intro i last hik hsk hprev
    rcases hsk with ⟨sk, hsk, _⟩
    simp at hsk
  | cons s0 rest ih =>
    intro i last hik hsk hprev
    rw [failoverP]
    rcases eq_or_ne i k with heq | hne
    · rcases hsk with ⟨sk, hsknth, hskok⟩
      have hzero : k - i = 0 := by omega
      rw [hzero, List.getElem?_cons_zero] at hsknth
      injection hsknth with hs0
      subst hs0
      rw [hskok]
      have hfk : (f i).2 = .ok u := by rw [heq]; exact hku
      rcases hf : f i with ⟨evs, res⟩
      rw [hf] at hfk
      cases res with
      | error e => simp at hfk
      | ok u2 =>
        injection hfk with hu2
        subst hu2
        refine ⟨rfl, ?_⟩
        intro j evs2 hmem
        simp only [List.mem_singleton] at hmem
        cases hmem
        omega
    · have hiklt : i < k := by omega
      have hnext : k - i = (k - (i + 1)) + 1 := by omega
      rcases hsk with ⟨sk, hsknth, hskok⟩
      rw [hnext, List.getElem?_cons_succ] at hsknth
      have hskrest : ∃ sk2, rest[k - (i + 1)]? = some sk2 ∧ parse sk2 = .ok () :=
        ⟨sk, hsknth, hskok⟩
      have hprevrest : ∀ j, i + 1 ≤ j → j < k →
          (∃ s e, rest[j - (i + 1)]? = some s ∧ parse s = .error e)
          ∨ (∃ e, (f j).2 = .error e) := by
        intro j hj1 hj2
        rcases hprev j (by omega) hj2 with h | h
        · rcases h with ⟨s, e, hnth, hpe⟩
          have hidx : j - i = (j - (i + 1)) + 1 := by omega
          rw [hidx, List.getElem?_cons_succ] at hnth
          exact Or.inl ⟨s, e, hnth, hpe⟩
        · exact Or.inr h
      rcases hprev i le_rfl hiklt with ⟨s, e, hnth, hpe⟩ | ⟨e, hfe⟩
      · have hzero : i - i = 0 := by omega
        rw [hzero, List.getElem?_cons_zero] at hnth
        injection hnth with hss
        subst hss
        rw [hpe]
        rcases ih (i + 1) ("Invalid server URL: " ++ e) (by omega) hskrest hprevrest
          with ⟨hres, hmem⟩
        refine ⟨hres, ?_⟩
        intro j evs hm
        rcases List.mem_cons.mp hm with h | h
        · cases h
        · exact hmem j evs h
      · rcases hp : parse s0 with e0 | hu
        · rcases ih (i + 1) ("Invalid server URL: " ++ e0) (by omega) hskrest hprevrest
            with ⟨hres, hmem⟩
          refine ⟨hres, ?_⟩
          intro j evs hm
          rcases List.mem_cons.mp hm with h | h
          · cases h
          · exact hmem j evs h
        · rcases hf : f i with ⟨evs2, res⟩
          rw [hf] at hfe
          cases res with
          | ok u2 => simp at hfe
          | error e2 =>
            rcases ih (i + 1) e2 (by omega) hskrest hprevrest with ⟨hres, hmem⟩
            refine ⟨hres, ?_⟩
            intro j evs hm
            rcases List.mem_cons.mp hm with h | h
            · cases h; omega
            · rcases List.mem_cons.mp h with h | h
              · cases h
              · exact hmem j evs h
/-! ## Lemmas about the `src/upload.rs` polling loop -/

theorem percentageOf_le_100 (total cur : Nat) (h : cur ≤ total) :
    percentageOf total cur ≤ 100 := by
  unfold percentageOf
  rcases Nat.eq_zero_or_pos total with h0 | h0
  · simp [h0]
  · rw [if_pos h0]
    calc cur * 100 / total ≤ total * 100 / total :=
          Nat.div_le_div_right (Nat.mul_le_mul_right 100 h)
      _ = 100 := Nat.mul_div_cancel_left 100 h0

theorem percentageOf_mono (total : Nat) {a b : Nat} (h : a ≤ b) :
    percentageOf total a ≤ percentageOf total b := by
  unfold percentageOf
  rcases Nat.eq_zero_or_pos total with h0 | h0
  · simp [h0]
  · rw [if_pos h0, if_pos h0]
    exact Nat.div_le_div_right (Nat.mul_le_mul_right 100 h)

theorem percentageOf_zero (total : Nat) : percentageOf total 0 = 0 := by
  unfold percentageOf
  rcases Nat.eq_zero_or_pos total with h0 | h0 <;> simp [h0]

/-- On a stalled tick (byte counter unchanged, percentage strictly between
0 and 100) with a callback that accepts, the stall counter is incremented,
and the tick aborts with the stall error exactly when the incremented
counter reaches the threshold. -/
theorem uploadTick_stalled (T : Nat) (cb : ProgressCb) (total : Nat)
    (st : TickSt) (cur : Nat) (hcb : ∀ p b, cb p b = .ok ())
    (hstall : cur = st.lastBytesSent ∧ percentageOf total cur < 100
      ∧ 0 < percentageOf total cur) :
    ((uploadTick T cb total st cur).2 = .error (.uploadErrorMsg stallMsg)
      ↔ T ≤ st.stallCounter + 1)
    ∧ (st.stallCounter + 1 < T →
      ∃ st1, (uploadTick T cb total st cur).2 = .ok st1
        ∧ st1.stallCounter = st.stallCounter + 1
        ∧ st1.lastBytesSent = st.lastBytesSent) := by
  unfold uploadTick
  rw [if_pos hstall]
  constructor
  · constructor
    · intro h
      by_contra hlt
      rw [if_neg hlt] at h
      unfold reportStep at h
      rcases lt_or_ge st.lastPercentage (percentageOf total cur) with hp | hp
      · rw [if_pos hp, hcb _ _] at h
        simp at h
      · rw [if_neg (not_lt.mpr hp)] at h
        simp at h
    · intro h
      rw [if_pos h]
  · intro hlt
    rw [if_neg (by omega)]
    unfold reportStep
    rcases lt_or_ge st.lastPercentage (percentageOf total cur) with hp | hp
    · rw [if_pos hp, hcb _ _]
      exact ⟨_, rfl, rfl, rfl⟩
    · rw [if_neg (not_lt.mpr hp)]
      exact ⟨_, rfl, rfl, rfl⟩

/-- On a tick where the byte counter changed, the stall counter is reset
to 0 and the new byte value is recorded. -/
theorem uploadTick_changed (T : Nat) (cb : ProgressCb) (total : Nat)
    (st : TickSt) (cur : Nat) (hcb : ∀ p b, cb p b = .ok ())
    (hchg : cur ≠ st.lastBytesSent) :
    ∃ st1, (uploadTick T cb total st cur).2 = .ok st1
      ∧ st1.stallCounter = 0 ∧ st1.lastBytesSent = cur := by
  unfold uploadTick
  rw [if_neg (by simp [hchg])]
  unfold reportStep
  rcases lt_or_ge st.lastPercentage (percentageOf total cur) with hp | hp
  · rw [if_pos hp, hcb _ _]
    exact ⟨_, rfl, rfl, rfl⟩
  · rw [if_neg (not_lt.mpr hp)]
    exact ⟨_, rfl, rfl, rfl⟩

/-- The stall counter stays strictly below the threshold on every
non-aborting tick (so the abort fires exactly when the counter reaches the
threshold, never later). -/
theorem uploadTick_invariant (T : Nat) (cb : ProgressCb) (total : Nat)
    (st : TickSt) (cur : Nat) (hT : 1 ≤ T)
    (st1 : TickSt) (h : (uploadTick T cb total st cur).2 = .ok st1) :
    st1.stallCounter < T := by
  unfold uploadTick at h
  by_cases hc : cur = st.lastBytesSent ∧ percentageOf total cur < 100
      ∧ 0 < percentageOf total cur
  · rw [if_pos hc] at h
    by_cases hthr : T ≤ st.stallCounter + 1
    · rw [if_pos hthr] at h
      simp at h
    · rw [if_neg hthr] at h
      unfold reportStep at h
      rcases lt_or_ge st.lastPercentage (percentageOf total cur) with hp | hp
      · rw [if_pos hp] at h
        cases hcb : cb (percentageOf total cur) cur with
        | error e => rw [hcb] at h; simp at h
        | ok a =>
          rw [hcb] at h
          injection h with h
          subst h
          show st.stallCounter + 1 < T
          omega
      · rw [if_neg (not_lt.mpr hp)] at h
        injection h with h
        subst h
        show st.stallCounter + 1 < T
        omega
  · rw [if_neg hc] at h
    unfold reportStep at h
    rcases lt_or_ge st.lastPercentage (percentageOf total cur) with hp | hp
    · rw [if_pos hp] at h
      cases hcb : cb (percentageOf total cur) cur with
      | error e => rw [hcb] at h; simp at h
      | ok a =>
        rw [hcb] at h
        injection h with h
        subst h
        show (0 : Nat) < T
        omega
    · rw [if_neg (not_lt.mpr hp)] at h
      injection h with h
      subst h
      show (0 : Nat) < T
      omega

/-- Full case analysis of the report step: either the percentage did not
strictly increase and nothing is reported, or the callback is invoked with
the new percentage and either aborts or updates `last_percentage`. -/
theorem reportStep_cases (cb : ProgressCb) (st : TickSt) (p b : Nat) :
    (¬ st.lastPercentage < p ∧ reportStep cb st p b = (none, .ok st))
    ∨ (st.lastPercentage < p ∧ ∃ e, cb p b = .error e
        ∧ reportStep cb st p b = (some (p, b), .error (.uploadErrorMsg e)))
    ∨ (st.lastPercentage < p ∧ cb p b = .ok ()
        ∧ reportStep cb st p b = (some (p, b), .ok { st with lastPercentage := p })) := by
  unfold reportStep
  rcases lt_or_ge st.lastPercentage p with hp | hp
  · rw [if_pos hp]
    cases hcb : cb p b with
    | error e => exact Or.inr (Or.inl ⟨hp, e, rfl, rfl⟩)
    | ok a => exact Or.inr (Or.inr ⟨hp, rfl, rfl⟩)
  · rw [if_neg (not_lt.mpr hp)]
    exact Or.inl ⟨not_lt.mpr hp, rfl⟩

/-- Every `src/upload.rs` tick either aborts with the stall error or
behaves as the report step on a state with the same `last_percentage`. -/
theorem uploadTick_cases (T : Nat) (cb : ProgressCb) (total : Nat)
    (st : TickSt) (cur : Nat) :
    uploadTick T cb total st cur = (none, .error (.uploadErrorMsg stallMsg))
    ∨ ∃ st2, st2.lastPercentage = st.lastPercentage
        ∧ uploadTick T cb total st cur
            = reportStep cb st2 (percentageOf total cur) cur := by
  unfold uploadTick
  by_cases hc : cur = st.lastBytesSent ∧ percentageOf total cur < 100
      ∧ 0 < percentageOf total cur
  · rw [if_pos hc]
    by_cases hthr : T ≤ st.stallCounter + 1
    · rw [if_pos hthr]
      exact Or.inl rfl
    · rw [if_neg hthr]
      exact Or.inr ⟨{ st with stallCounter := st.stallCounter + 1 }, rfl, rfl⟩
  · rw [if_neg hc]
    exact Or.inr ⟨{ st with stallCounter := 0, lastBytesSent := cur }, rfl, rfl⟩

/-- The percentages reported by the `src/upload.rs` polling loop strictly
increase, starting strictly above the loop state's `last_percentage` —
regardless of how the loop ends. -/
theorem runTicksU_chain (T : Nat) (cb : ProgressCb) (total : Nat) :
    ∀ (samples : List Nat) (st : TickSt),
      List.Chain' (· < ·)
        (st.lastPercentage :: (runTicksU T cb total st samples).1.map Prod.fst) := by
  intro samples
  induction samples with
  | nil => intro st; simp [runTicksU, List.chain'_singleton]
  | cons cur rest ih =>
    intro st
    rw [runTicksU]
    rcases uploadTick_cases T cb total st cur with habort | ⟨st2, hlp, htick⟩
    · rw [habort]
      simp [List.chain'_singleton]
    · rw [htick]
      rcases reportStep_cases cb st2 (percentageOf total cur) cur with
        ⟨hnp, heq⟩ | ⟨hp, e, hcb, heq⟩ | ⟨hp, hcb, heq⟩
      · rw [heq]
        simp only [Option.toList_none, List.nil_append]
        have := ih st2
        rw [hlp] at this
        exact this
      · rw [heq]
        simp only [Option.toList_some]
        rw [hlp] at hp
        simp [List.chain'_pair, hp]
      · rw [heq]
        simp only [Option.toList_some, List.cons_append, List.nil_append,
          List.map_cons]
        rw [List.chain'_cons]
        refine ⟨hlp ▸ hp, ?_⟩
        have := ih { st2 with lastPercentage := percentageOf total cur }
        exact this

/-- Every percentage the `src/upload.rs` polling loop reports is at most
100 when the sampled byte counts stay within the total size. -/
theorem runTicksU_reports_le (T : Nat) (cb : ProgressCb) (total : Nat) :
    ∀ (samples : List Nat) (st : TickSt),
      (∀ c ∈ samples, c ≤ total) →
      ∀ r ∈ (runTicksU T cb total st samples).1, r.1 ≤ 100 := by
  intro samples
  induction samples with
  | nil => intro st hb r hr; simp [runTicksU] at hr
  | cons cur rest ih =>
    intro st hb r hr
    rw [runTicksU] at hr
    have hcur : cur ≤ total := hb cur (by simp)
    have hrest : ∀ c ∈ rest, c ≤ total := fun c hc => hb c (by simp [hc])
    rcases uploadTick_cases T cb total st cur with habort | ⟨st2, hlp, htick⟩
    · rw [habort] at hr
      simp at hr
    · rw [htick] at hr
      rcases reportStep_cases cb st2 (percentageOf total cur) cur with
        ⟨hnp, heq⟩ | ⟨hp, e, hcb, heq⟩ | ⟨hp, hcb, heq⟩
      · rw [heq] at hr
        simp only [Option.toList_none, List.nil_append] at hr
        exact ih st2 hrest r hr
      · rw [heq] at hr
        simp only [Option.toList_some, List.mem_singleton] at hr
        subst hr
        exact percentageOf_le_100 total cur hcur
      · rw [heq] at hr
        simp only [Option.toList_some, List.cons_append, List.nil_append,
          List.mem_cons] at hr
        rcases hr with hr | hr
        · subst hr
          exact percentageOf_le_100 total cur hcur
        · exact ih _ hrest r hr

/-! ## Lemmas about the `src/blossom.rs` polling loop -/

/-- Case analysis of a Blossom tick: nothing happens when the percentage
equals the last reported one; otherwise the callback is invoked and either
aborts with its own error or the new percentage is recorded. -/
theorem blossomTick_cases (cb : ProgressCb) (total lp cur : Nat) :
    (percentageOf total cur = lp
      ∧ Blossom.blossomTick cb total lp cur = (none, .ok lp))
    ∨ (percentageOf total cur ≠ lp
      ∧ ∃ e, cb (percentageOf total cur) cur = .error e
        ∧ Blossom.blossomTick cb total lp cur
            = (some (percentageOf total cur, cur), .error e))
    ∨ (percentageOf total cur ≠ lp
      ∧ cb (percentageOf total cur) cur = .ok ()
        ∧ Blossom.blossomTick cb total lp cur
            = (some (percentageOf total cur, cur), .ok (percentageOf total cur))) := by
  unfold Blossom.blossomTick
  by_cases hp : percentageOf total cur ≠ lp
  · rw [if_pos hp]
    cases hcb : cb (percentageOf total cur) cur with
    | error e => exact Or.inr (Or.inl ⟨hp, e, rfl, rfl⟩)
    | ok a => exact Or.inr (Or.inr ⟨hp, rfl, rfl⟩)
  · rw [if_neg hp]
    push_neg at hp
    exact Or.inl ⟨hp, rfl⟩

/-- With a non-decreasing sample sequence, the percentages reported by the
Blossom polling loop strictly increase (the `!=` test of the source only
fires on a strict increase), starting strictly above the percentage of the
byte count sampled before the loop state's `last_percentage` was last
set. -/
theorem runTicksB_chain (cb : ProgressCb) (total : Nat) :
    ∀ (samples : List Nat) (prev : Nat),
      List.Chain' (· ≤ ·) (prev :: samples) →
      List.Chain' (· < ·)
        (percentageOf total prev ::
          (Blossom.runTicksB cb total (percentageOf total prev) samples).1.map
            Prod.fst) := by
  intro samples
  induction samples with
  | nil => intro prev hm; simp [Blossom.runTicksB, List.chain'_singleton]
  | cons cur rest ih =>
    intro prev hm
    rcases List.chain'_cons.mp hm with ⟨hpc, hm2⟩
    have hple : percentageOf total prev ≤ percentageOf total cur :=
      percentageOf_mono total hpc
    rw [Blossom.runTicksB]
    rcases blossomTick_cases cb total (percentageOf total prev) cur with
      ⟨heq, htick⟩ | ⟨hne, e, hcb, htick⟩ | ⟨hne, hcb, htick⟩
    · rw [htick]
      simp only [Option.toList_none, List.nil_append]
      have := ih cur hm2
      rw [heq] at this
      exact this
    · rw [htick]
      simp only [Option.toList_some]
      have : percentageOf total prev < percentageOf total cur :=
        lt_of_le_of_ne hple (fun h => hne h.symm)
      simp [List.chain'_pair, this]
    · rw [htick]
      simp only [Option.toList_some, List.cons_append, List.nil_append,
        List.map_cons]
      rw [List.chain'_cons]
      exact ⟨lt_of_le_of_ne hple (fun h => hne h.symm), ih cur hm2⟩

/-- When the Blossom polling loop ends without aborting, its final
`last_percentage` is the percentage of the last report (or the initial
value if nothing was reported). -/
theorem runTicksB_last (cb : ProgressCb) (total : Nat) :
    ∀ (samples : List Nat) (lp lp2 : Nat),
      (Blossom.runTicksB cb total lp samples).2 = .ok lp2 →
      lp2 = ((Blossom.runTicksB cb total lp samples).1.map Prod.fst).getLastD lp := by
  intro samples
  induction samples with
  | nil =>
    intro lp lp2 h
    simp [Blossom.runTicksB] at h ⊢
    exact h.symm
  | cons cur rest ih =>
    intro lp lp2 h
    rw [Blossom.runTicksB] at h ⊢
    rcases blossomTick_cases cb total lp cur with
      ⟨heq, htick⟩ | ⟨hne, e, hcb, htick⟩ | ⟨hne, hcb, htick⟩
    · rw [htick] at h ⊢
      simp only [Option.toList_none, List.nil_append] at h ⊢
      exact ih lp lp2 h
    · rw [htick] at h
      simp at h
    · rw [htick] at h ⊢
      simp only [Option.toList_some, List.cons_append, List.nil_append,
        List.map_cons] at h ⊢
      rw [List.getLastD_cons]
      exact ih (percentageOf total cur) lp2 h

/-! ## Decomposition of successful attempts -/

/-- A successful `src/upload.rs` attempt reports exactly: the initial 0 %,
the polling-loop reports, and the unconditional final 100 % — the final
100 % is issued whether or not the timer already reported 100 %. -/
theorem upload_attempt_ok_reports (cb : ProgressCb) (total T : Nat)
    (mime : Option String) (env : UEnv) (url : String)
    (h : (Upload.upload_attempt cb total T mime env).2 = .ok url) :
    ∃ tickReports st1,
      runTicksU T cb total ⟨0, 0, 0⟩ env.samples = (tickReports, .ok st1)
      ∧ (Upload.upload_attempt cb total T mime env).1
          = (0, 0) :: (tickReports ++ [(100, total)]) := by
  unfold Upload.upload_attempt at h ⊢
  cases hauth : env.authResult with
  | error e => rw [hauth] at h; simp at h
  | ok a =>
    rw [hauth] at h
    cases hcb0 : cb 0 0 with
    | error e => rw [hcb0] at h; simp at h
    | ok u0 =>
      rw [hcb0] at h
      cases hcl : env.clientResult with
      | error e => rw [hcl] at h; simp at h
      | ok ucl =>
        rw [hcl] at h
        by_cases hmime : mime.isSome ∧ ¬ env.mimeStrValid = true
        · rw [if_pos hmime] at h
          simp at h
        · rw [if_neg hmime] at h ⊢
          rcases hrt : runTicksU T cb total ⟨0, 0, 0⟩ env.samples with ⟨tickReports, res⟩
          rw [hrt] at h
          cases res with
          | error e => simp at h
          | ok st1 =>
            refine ⟨tickReports, st1, rfl, ?_⟩
            unfold Upload.finishAttempt at h ⊢
            cases hresp : env.response with
            | sendErr e => rw [hresp] at h; simp at h
            | jsonErr e =>
              rw [hresp] at h
              cases hcb100 : cb 100 total with
              | error e2 => rw [hcb100] at h; simp at h
              | ok u100 => rw [hcb100] at h; simp at h
            | parsed isErr msg nip =>
              rw [hresp] at h
              cases hcb100 : cb 100 total with
              | error e2 => rw [hcb100] at h; simp at h
              | ok u100 =>
                rw [hcb100] at h
                cases isErr with
                | true => simp at h
                | false =>
                  cases nip with
                  | none => simp at h
                  | some inner =>
                    cases inner with
                    | none => simp at h
                    | some u2 => simp

theorem reportsOf_append (a b : List AEv) :
    reportsOf (a ++ b) = reportsOf a ++ reportsOf b := by
  induction a with
  | nil => simp [reportsOf]
  | cons x rest ih =>
    cases x with
    | report p q => simp [reportsOf, ih]
    | mint m => simp [reportsOf, ih]

theorem mintsOf_append (a b : List AEv) :
    mintsOf (a ++ b) = mintsOf a ++ mintsOf b := by
  induction a with
  | nil => simp [mintsOf]
  | cons x rest ih =>
    cases x with
    | report p q => simp [mintsOf, ih]
    | mint m => simp [mintsOf, ih]

theorem reportsOf_map_report (xs : List (Nat × Nat)) :
    reportsOf (xs.map (fun r => AEv.report r.1 r.2)) = xs := by
  induction xs with
  | nil => simp [reportsOf]
  | cons x rest ih => simp [reportsOf, ih]

theorem mintsOf_map_report (xs : List (Nat × Nat)) :
    mintsOf (xs.map (fun r => AEv.report r.1 r.2)) = [] := by
  induction xs with
  | nil => simp [mintsOf]
  | cons x rest ih => simp [mintsOf, ih]

/-- A successful Blossom attempt decomposes into: a non-aborting polling
loop, a successfully signed capability for the payload hash and the
attempt's own timestamp, and an event list consisting of the initial 0 %
report, the mint, the loop reports, and the forced 100 % report exactly
when the final byte count equals the total and the timer had not already
reported 100 %. -/
theorem blossom_attempt_ok_events (cb : ProgressCb) (sha : List Nat → List Nat)
    (data : List Nat) (mime : Option String) (env : BEnv) (url : String)
    (h : (Blossom.upload_attempt cb sha data mime env).2 = .ok url) :
    ∃ tickReports lp1 ev,
      Blossom.runTicksB cb data.length 0 env.samples = (tickReports, .ok lp1)
      ∧ env.sign (mkAuth (sha data) env.now) = .ok ev
      ∧ ((env.finalBytes = data.length ∧ lp1 < 100
            ∧ (Blossom.upload_attempt cb sha data mime env).1
              = (AEv.report 0 0 :: [AEv.mint (mkAuth (sha data) env.now)]
                  ++ tickReports.map (fun r => AEv.report r.1 r.2))
                ++ [AEv.report 100 data.length])
        ∨ (¬ (env.finalBytes = data.length ∧ lp1 < 100)
            ∧ (Blossom.upload_attempt cb sha data mime env).1
              = AEv.report 0 0 :: [AEv.mint (mkAuth (sha data) env.now)]
                  ++ tickReports.map (fun r => AEv.report r.1 r.2))) := by
  unfold Blossom.upload_attempt at h ⊢
  cases hjoin : env.joinResult with
  | error e => rw [hjoin] at h; simp at h
  | ok uj =>
    rw [hjoin] at h
    cases hcb0 : cb 0 0 with
    | error e => rw [hcb0] at h; simp at h
    | ok u0 =>
      rw [hcb0] at h
      unfold Blossom.build_auth_header at h ⊢
      cases hsign : env.sign (mkAuth (sha data) env.now) with
      | error e => rw [hsign] at h; simp at h
      | ok ev =>
        rw [hsign] at h
        cases hmm : (match mime with | some _ => env.mimeResult | none => .ok ()) with
        | error e => rw [hmm] at h; simp at h
        | ok um =>
          rw [hmm] at h
          cases hcl : env.clientResult with
          | error e => rw [hcl] at h; simp at h
          | ok ucl =>
            rw [hcl] at h
            rcases hrt : Blossom.runTicksB cb data.length 0 env.samples with
              ⟨tickReports, res⟩
            rw [hrt] at h
            cases res with
            | error e => simp at h
            | ok lp1 =>
              refine ⟨tickReports, lp1, ev, rfl, rfl, ?_⟩
              cases hresp : env.response with
              | sendErr e => rw [hresp] at h; simp at h
              | resp status parseResult text =>
                rw [hresp] at h
                simp only [] at h
                by_cases hforce : env.finalBytes = data.length ∧ lp1 < 100
                · rw [if_pos hforce] at h
                  cases hcb100 : cb 100 data.length with
                  | error e2 => rw [hcb100] at h; simp at h
                  | ok u100 =>
                    refine Or.inl ⟨hforce.1, hforce.2, ?_⟩
                    simp [hforce, hcb100]
                · rw [if_neg hforce] at h
                  refine Or.inr ⟨hforce, ?_⟩
                  simp [hforce]

/-- Whatever a Blossom attempt does, every capability it mints is the one
for the payload's hash and the attempt's own `Timestamp::now()` value. -/
theorem blossom_attempt_mints (cb : ProgressCb) (sha : List Nat → List Nat)
    (data : List Nat) (mime : Option String) (env : BEnv) :
    ∀ a ∈ mintsOf (Blossom.upload_attempt cb sha data mime env).1,
      a = mkAuth (sha data) env.now := by
  intro a ha
  unfold Blossom.upload_attempt at ha
  cases hjoin : env.joinResult with
  | error e => rw [hjoin] at ha; simp [mintsOf] at ha
  | ok uj =>
    rw [hjoin] at ha
    cases hcb0 : cb 0 0 with
    | error e => rw [hcb0] at ha; simp [mintsOf] at ha
    | ok u0 =>
      rw [hcb0] at ha
      unfold Blossom.build_auth_header at ha
      cases hsign : env.sign (mkAuth (sha data) env.now) with
      | error e =>
        rw [hsign] at ha
        simp [mintsOf] at ha
      | ok ev =>
        rw [hsign] at ha
        cases hmm : (match mime with | some _ => env.mimeResult | none => .ok ()) with
        | error e =>
          rw [hmm] at ha
          simp [mintsOf] at ha
          exact ha
        | ok um =>
          rw [hmm] at ha
          cases hcl : env.clientResult with
          | error e =>
            rw [hcl] at ha
            simp [mintsOf] at ha
            exact ha
          | ok ucl =>
            rw [hcl] at ha
            rcases hrt : Blossom.runTicksB cb data.length 0 env.samples with
              ⟨tickReports, res⟩
            rw [hrt] at ha
            cases res with
            | error e =>
              simp [mintsOf, mintsOf_append, mintsOf_map_report] at ha
              exact ha
            | ok lp1 =>
              cases hresp : env.response with
              | sendErr e =>
                rw [hresp] at ha
                simp [mintsOf, mintsOf_append, mintsOf_map_report] at ha
                exact ha
              | resp status parseResult text =>
                rw [hresp] at ha
                simp only [] at ha
                by_cases hforce : env.finalBytes = data.length ∧ lp1 < 100
                · rw [if_pos hforce] at ha
                  cases hcb100 : cb 100 data.length with
                  | error e2 =>
                    rw [hcb100] at ha
                    simp [mintsOf, mintsOf_append, mintsOf_map_report] at ha
                    exact ha
                  | ok u100 =>
                    rw [hcb100] at ha
                    simp [mintsOf, mintsOf_append, mintsOf_map_report] at ha
                    exact ha
                · rw [if_neg hforce] at ha
                  simp [mintsOf, mintsOf_append, mintsOf_map_report] at ha
                  exact ha

/-! ## Remaining helper lemmas -/

theorem chunksFrom_ne_nil {α : Type} (C : Nat) (hC : 0 < C) (data : List α)
    (hd : data ≠ []) : chunksFrom C data ≠ [] := by
  rw [chunksFrom_cons C hC data hd]
  simp

theorem chunksFrom_dropLast_bounded {α : Type} (C : Nat) (hC : 0 < C) :
    ∀ (n : Nat) (data : List α), data.length ≤ n →
      ∀ l ∈ (chunksFrom C data).dropLast, l.length = C := by
  intro n
  induction n with
  | zero =>
    intro data h l hl
    have := List.length_eq_zero.mp (Nat.le_zero.mp h)
    subst this
    simp [chunksFrom_nil] at hl
  | succ n ih =>
    intro data h l hl
    rcases eq_or_ne data [] with rfl | hd
    · simp [chunksFrom_nil] at hl
    · rw [chunksFrom_cons C hC data hd] at hl
      rcases eq_or_ne (data.drop C) [] with hdrop | hdrop
      · rw [hdrop, chunksFrom_nil] at hl
        simp at hl
      · rw [List.dropLast_cons_of_ne_nil (chunksFrom_ne_nil C hC _ hdrop)] at hl
        rcases List.mem_cons.mp hl with hl | hl
        · subst hl
          have hlen : C < data.length := by
            have : data.length - C ≠ 0 := by
              simpa [List.length_drop] using
                fun hz => hdrop (List.length_eq_zero.mp (by simp [List.length_drop, hz]))
            omega
          simp [List.length_take]
          omega
        · have hdlen : (data.drop C).length ≤ n := by
            have : 0 < data.length := List.length_pos.mpr hd
            simp only [List.length_drop]
            omega
          exact ih (data.drop C) hdlen l hl

/-- Every chunk except the last has exactly the bound `C` bytes. -/
theorem chunksFrom_dropLast {α : Type} (C : Nat) (hC : 0 < C) (data : List α) :
    ∀ l ∈ (chunksFrom C data).dropLast, l.length = C :=
  chunksFrom_dropLast_bounded C hC data.length data le_rfl

theorem chunksFrom_getLastD_bounded {α : Type} (C : Nat) (hC : 0 < C) :
    ∀ (n : Nat) (data : List α), data.length ≤ n → data ≠ [] → ∀ (d : List α),
      ((chunksFrom C data).getLastD d).length
        = data.length - ((chunksFrom C data).length - 1) * C := by
  intro n
  induction n with
  | zero =>
    intro data h hd d
    exact absurd (List.length_eq_zero.mp (Nat.le_zero.mp h)) hd
  | succ n ih =>
    intro data h hd d
    have hpos : 0 < data.length := List.length_pos.mpr hd
    rcases eq_or_ne (data.drop C) [] with hdrop | hdrop
    · have hlen : data.length ≤ C := by
        have h0 : data.length - C = 0 := by
          simpa [List.length_drop] using congrArg List.length hdrop
        omega
      rw [chunksFrom_cons C hC data hd, hdrop, chunksFrom_nil]
      simp [List.getLastD_cons, List.getLastD_nil, List.length_take]
      omega
    · have hdlen : (data.drop C).length ≤ n := by
        simp only [List.length_drop]
        omega
      have hdne : data.drop C ≠ [] := hdrop
      rw [chunksFrom_cons C hC data hd, List.getLastD_cons,
        ih (data.drop C) hdlen hdne (data.take C)]
      simp only [List.length_cons, List.length_drop]
      rcases Nat.exists_eq_add_of_lt
        (List.length_pos.mpr (chunksFrom_ne_nil C hC _ hdne)) with ⟨m, hm⟩
      rw [Nat.zero_add] at hm
      rw [hm]
      have h1 : m + 1 + 1 - 1 = m + 1 := by omega
      have h2 : m + 1 - 1 = m := by omega
      rw [h1, h2, Nat.succ_mul, Nat.sub_sub]
      congr 1
      omega

/-- The last chunk has the remaining `N - (ceil(N/C) - 1) * C` bytes. -/
theorem chunksFrom_getLastD {α : Type} (C : Nat) (hC : 0 < C) (data : List α)
    (hd : data ≠ []) :
    (((chunksFrom C data).getLastD []).length)
      = data.length - ((chunksFrom C data).length - 1) * C :=
  chunksFrom_getLastD_bounded C hC data.length data le_rfl hd []

/-- Every percentage the Blossom polling loop reports is at most 100 when
the sampled byte counts stay within the total size. -/
theorem runTicksB_reports_le (cb : ProgressCb) (total : Nat) :
    ∀ (samples : List Nat) (lp : Nat),
      (∀ c ∈ samples, c ≤ total) →
      ∀ r ∈ (Blossom.runTicksB cb total lp samples).1, r.1 ≤ 100 := by
  intro samples
  induction samples with
  | nil => intro lp hb r hr; simp [Blossom.runTicksB] at hr
  | cons cur rest ih =>
    intro lp hb r hr
    rw [Blossom.runTicksB] at hr
    have hcur : cur ≤ total := hb cur (by simp)
    have hrest : ∀ c ∈ rest, c ≤ total := fun c hc => hb c (by simp [hc])
    rcases blossomTick_cases cb total lp cur with
      ⟨heq, htick⟩ | ⟨hne, e, hcb, htick⟩ | ⟨hne, hcb, htick⟩
    · rw [htick] at hr
      simp only [Option.toList_none, List.nil_append] at hr
      exact ih lp hrest r hr
    · rw [htick] at hr
      simp only [Option.toList_some, List.mem_singleton] at hr
      subst hr
      exact percentageOf_le_100 total cur hcur
    · rw [htick] at hr
      simp only [Option.toList_some, List.cons_append, List.nil_append,
        List.mem_cons] at hr
      rcases hr with hr | hr
      · subst hr
        exact percentageOf_le_100 total cur hcur
      · exact ih _ hrest r hr

/-- Each attempt entry of a retry trace carries exactly the events the
single-attempt function produced for that attempt index. -/
theorem retryGo_attempt_events {τ E U : Type} (f : Nat → List τ × Except E U)
    (noneErr : E) :
    ∀ (remaining i : Nat) (last : Option E) (j : Nat) (evs : List τ),
      REv.attemptEvs j evs ∈ (retryGo f noneErr i remaining last).1 →
      evs = (f j).1 := by
  intro remaining
  induction remaining with
  | zero => intro i last j evs h; simp [retryGo] at h
  | succ remaining ih =>
    intro i last j evs h
    rw [retryGo] at h
    rcases hf : f i with ⟨evs2, res⟩
    rw [hf] at h
    cases res with
    | ok u =>
      simp only at h
      rcases List.mem_append.mp h with h | h
      · rcases eq_or_ne i 0 with h0 | h0 <;> simp [h0] at h
      · simp only [List.mem_singleton] at h
        cases h
        rw [hf]
    | error e =>
      simp only at h
      rcases List.mem_append.mp h with h | h
      · rcases eq_or_ne i 0 with h0 | h0 <;> simp [h0] at h
      · rcases List.mem_cons.mp h with h | h
        · cases h
          rw [hf]
        · exact ih (i + 1) (some e) j evs h

/-! ## The claims -/

/-- C6: for every payload of `N > 0` bytes and chunk size `C > 0`, the
chunk producer emits exactly `ceil(N / C)` chunks, in strict offset order
with no gaps or overlaps (their concatenation equals the payload), every
chunk except the last having exactly `C` bytes and the last having
`N - (ceil(N / C) - 1) * C` bytes; after all chunks are consumed the
bytes-sent counter equals `N`.  In particular 200 000 bytes with
`C = 65 536` yield 4 chunks of sizes 65 536, 65 536, 65 536, 3 392. -/
theorem C6_chunk_producer {α : Type} (C : Nat) (data : List α) (hC : 0 < C)
    (hN : data ≠ []) :
    (chunksFrom C data).length = (data.length + C - 1) / C
    ∧ (chunksFrom C data).flatten = data
    ∧ (chunksFrom C data).map List.length = chunkSizes C data.length
    ∧ (∀ l ∈ (chunksFrom C data).dropLast, l.length = C)
    ∧ ((chunksFrom C data).getLastD []).length
        = data.length - ((chunksFrom C data).length - 1) * C
    ∧ counterAfter C data (chunksFrom C data).length = data.length
    ∧ (200000 + 65536 - 1) / 65536 = 4
    ∧ chunkSizes 65536 200000 = [65536, 65536, 65536, 3392] :=
  ⟨chunksFrom_length C hC data, chunksFrom_flatten C hC data,
   chunksFrom_map_length C hC data, chunksFrom_dropLast C hC data,
   chunksFrom_getLastD C hC data hN, counterAfter_final C hC data,
   by decide, by decide⟩

/-- Witness for C6 at a concrete input: 3 bytes in chunks of 2. -/
theorem C6_chunk_producer_witness :
    (chunksFrom 2 ([1, 2, 3] : List Nat)).length = (3 + 2 - 1) / 2
    ∧ (chunksFrom 2 ([1, 2, 3] : List Nat)).flatten = [1, 2, 3] :=
  ⟨(C6_chunk_producer 2 [1, 2, 3] (by decide) (by simp)).1,
   (C6_chunk_producer 2 [1, 2, 3] (by decide) (by simp)).2.1⟩

/-- C8: within one attempt the shared bytes-sent counter starts at 0, is
modified only by adding each delivered chunk's byte length, never
decreases, and never exceeds the total payload size; after all chunks it
equals the payload size. -/
theorem C8_bytes_counter {α : Type} (C : Nat) (data : List α) (hC : 0 < C) :
    counterAfter C data 0 = 0
    ∧ (∀ k (hk : k < (chunksFrom C data).length),
        counterAfter C data (k + 1)
          = counterAfter C data k + ((chunksFrom C data).get ⟨k, hk⟩).length)
    ∧ (∀ j k, j ≤ k → counterAfter C data j ≤ counterAfter C data k)
    ∧ (∀ k, counterAfter C data k ≤ data.length)
    ∧ counterAfter C data (chunksFrom C data).length = data.length :=
  ⟨counterAfter_zero C data,
   fun k hk => counterAfter_succ C data k hk,
   fun _ _ h => counterAfter_mono C data h,
   fun k => counterAfter_le C hC data k,
   counterAfter_final C hC data⟩

/-- Witness for C8 at a concrete input. -/
theorem C8_bytes_counter_witness :
    counterAfter 2 ([1, 2, 3] : List Nat) 0 = 0
    ∧ counterAfter 2 ([1, 2, 3] : List Nat) 1 ≤ 3
    ∧ counterAfter 2 ([1, 2, 3] : List Nat)
        (chunksFrom 2 ([1, 2, 3] : List Nat)).length = 3 :=
  ⟨(C8_bytes_counter 2 [1, 2, 3] (by decide)).1,
   (C8_bytes_counter 2 [1, 2, 3] (by decide)).2.2.2.1 1,
   (C8_bytes_counter 2 [1, 2, 3] (by decide)).2.2.2.2⟩

/-- C10: calling either failover entry point with an empty server list
returns the error `All Blossom servers failed. Last error: No servers
available` with an empty event trace — so no upload attempt, no signing
operation and no progress-callback invocation took place. -/
theorem C10_empty_server_list (cb : ProgressCb) (sha : List Nat → List Nat)
    (data : List Nat) (mime : Option String) (envsP : Nat → Nat → BEnv)
    (envsS : Nat → BEnv) (parse : String → Except String Unit) (r : Nat) :
    Blossom.upload_blob_with_progress_and_failover cb sha data mime envsP parse [] r
      = ([], .error "All Blossom servers failed. Last error: No servers available")
    ∧ Blossom.upload_blob_with_failover sha data mime envsS parse []
      = ([], .error "All Blossom servers failed. Last error: No servers available") := by
  constructor <;> rfl

/-- C2: the retry controller invokes the single-attempt function at most
`r + 1` times; when every attempt fails there are exactly `r + 1`
invocations with a sleep before each one after the first and the last
error is returned; the first success is returned immediately with no
further invocations.  `upload_data_with_progress` and
`upload_blob_with_progress` are exactly this controller around their
respective attempt functions; with `r = 2` and an always-failing attempt,
exactly 3 invocations occur. -/
theorem C2_retry_controller {τ E U : Type} (f : Nat → List τ × Except E U)
    (noneErr : E) (r : Nat) :
    countAttempts (retryRun f noneErr r).1 ≤ r + 1
    ∧ (∀ errOf : Nat → E, (∀ j, (f j).2 = .error (errOf j)) →
        retryRun f noneErr r = (allFailTrace f 0 (r + 1), .error (errOf r))
        ∧ countAttempts (allFailTrace f 0 (r + 1)) = r + 1
        ∧ countSleeps (allFailTrace f 0 (r + 1)) = r)
    ∧ (∀ k u, k ≤ r → (f k).2 = .ok u →
        (∀ j, j < k → ∃ e, (f j).2 = .error e) →
        (retryRun f noneErr r).2 = .ok u
        ∧ countAttempts (retryRun f noneErr r).1 = k + 1
        ∧ ∀ j evs, REv.attemptEvs j evs ∈ (retryRun f noneErr r).1 → j ≤ k)
    ∧ (∀ (cb : ProgressCb) (total T : Nat) (mime : Option String)
        (envs : Nat → UEnv),
        Upload.upload_data_with_progress cb total T mime envs r
          = retryRun (fun i => Upload.upload_attempt cb total T mime (envs i))
              (.uploadErrorMsg "No upload attempts were made") r)
    ∧ (∀ (cb : ProgressCb) (sha : List Nat → List Nat) (data : List Nat)
        (mime : Option String) (envs : Nat → BEnv),
        Blossom.upload_blob_with_progress cb sha data mime envs r
          = retryRun (fun i => Blossom.upload_attempt cb sha data mime (envs i))
              "No upload attempts were made" r) := by
  refine ⟨retryGo_attempts_le f noneErr (r + 1) 0 none, ?_, ?_, fun _ _ _ _ _ => rfl,
    fun _ _ _ _ _ => rfl⟩
  · intro errOf hfail
    have h0 := retryGo_allFail f noneErr errOf hfail r 0 none
    rw [Nat.zero_add] at h0
    exact ⟨h0, allFailTrace_attempts f (r + 1) 0, allFailTrace_sleeps_zero f r⟩
  · intro k u hk hku hfail
    have h := retryGo_firstSuccess f noneErr k u hku hfail (r + 1) 0 none
      (Nat.zero_le k) (by omega)
    rcases h with ⟨h1, h2, h3⟩
    refine ⟨h1, ?_, h3⟩
    unfold retryRun
    rw [h2]
    omega

/-- Witness for C2: three attempts with `r = 2` and an always-failing
attempt function; the last error is returned. -/
theorem C2_retry_controller_witness :
    (retryRun (fun _ : Nat => (([] : List Unit), (.error "fail" : Except String String)))
        "none" 2).2 = .error "fail"
    ∧ countAttempts (retryRun
        (fun _ : Nat => (([] : List Unit), (.error "fail" : Except String String)))
        "none" 2).1 = 3 := by
  have h := (C2_retry_controller
    (fun _ : Nat => (([] : List Unit), (.error "fail" : Except String String)))
    "none" 2).2.1 (fun _ => "fail") (fun _ => rfl)
  refine ⟨?_, ?_⟩
  · rw [h.1]
  · rw [h.1]
    exact h.2.1

/-- C9: with a key decoding to 32 bytes and a nonce decoding to 16 bytes,
`encrypt_data` returns Ok with the ciphertext plus the 16-byte tag
(`data.len() + 16` bytes); `HexEncodingError` arises only from invalid
hex; valid hex of any other decoded length hits the
`GenericArray::from_slice` panic instead of an error return. -/
theorem C9_encrypt_data (cipher : AeadCipher) (data : List Nat)
    (params : EncryptionParams) :
    (∀ keyBytes nonceBytes ct tag,
        hexDecode params.key = some keyBytes → keyBytes.length = 32 →
        hexDecode params.nonce = some nonceBytes → nonceBytes.length = 16 →
        cipher.enc keyBytes nonceBytes data = .ok (ct, tag) →
        encrypt_data cipher data params = .ok (ct ++ tag)
        ∧ (ct ++ tag).length = data.length + 16)
    ∧ (∀ m, encrypt_data cipher data params = .err (.hexEncodingError m) →
        hexDecode params.key = none ∨ hexDecode params.nonce = none)
    ∧ (∀ keyBytes nonceBytes, hexDecode params.key = some keyBytes →
        keyBytes.length ≠ 32 → hexDecode params.nonce = some nonceBytes →
        encrypt_data cipher data params
          = .fatal "GenericArray::from_slice: slice length mismatch")
    ∧ (∀ keyBytes nonceBytes, hexDecode params.key = some keyBytes →
        keyBytes.length = 32 → hexDecode params.nonce = some nonceBytes →
        nonceBytes.length ≠ 16 →
        encrypt_data cipher data params
          = .fatal "GenericArray::from_slice: slice length mismatch") := by
  refine ⟨?_, ?_, ?_, ?_⟩
  · intro keyBytes nonceBytes ct tag hk hk32 hn hn16 henc
    constructor
    · unfold encrypt_data
      rw [hk, hn]
      simp only []
      rw [if_neg (by simp [hk32]), if_neg (by simp [hn16]), henc]
    · have h1 := cipher.enc_ct_length keyBytes nonceBytes data ct tag henc
      have h2 := cipher.enc_tag_length keyBytes nonceBytes data ct tag henc
      rw [List.length_append, h1, h2]
  · intro m h
    cases hk : hexDecode params.key with
    | none => exact Or.inl rfl
    | some keyBytes =>
      cases hn : hexDecode params.nonce with
      | none => exact Or.inr rfl
      | some nonceBytes =>
        exfalso
        unfold encrypt_data at h
        rw [hk, hn] at h
        simp only [] at h
        by_cases h32 : keyBytes.length ≠ 32
        · rw [if_pos h32] at h
          simp at h
        · rw [if_neg h32] at h
          by_cases h16 : nonceBytes.length ≠ 16
          · rw [if_pos h16] at h
            simp at h
          · rw [if_neg h16] at h
            cases henc : cipher.enc keyBytes nonceBytes data with
            | error e =>
              rw [henc] at h
              injection h with h2
              cases h2
            | ok ctag =>
              rcases ctag with ⟨ct, tag⟩
              rw [henc] at h
              simp at h
  · intro keyBytes nonceBytes hk hk32 hn
    unfold encrypt_data
    rw [hk, hn]
    simp only []
    rw [if_pos hk32]
  · intro keyBytes nonceBytes hk hk32 hn hn16
    unfold encrypt_data
    rw [hk, hn]
    simp only []
    rw [if_neg (by simp [hk32]), if_pos hn16]

/-- Witness for C9 at a concrete input: all-zero 32-byte key and 16-byte
nonce as hex, a 3-byte payload, and the concrete interface cipher. -/
theorem C9_encrypt_data_witness :
    encrypt_data dummyCipher [1, 2, 3]
        ⟨"0000000000000000000000000000000000000000000000000000000000000000",
         "00000000000000000000000000000000"⟩
      = .ok ([1, 2, 3] ++ List.replicate 16 0)
    ∧ ([1, 2, 3] ++ List.replicate 16 0).length = 3 + 16 :=
  (C9_encrypt_data dummyCipher [1, 2, 3] _).1
    (List.replicate 32 0) (List.replicate 16 0) [1, 2, 3] (List.replicate 16 0)
    (by decide) (by decide) (by decide) (by decide) rfl

/-- C1: on each sampling tick with the byte counter unchanged and a
percentage strictly between 0 and 100 the stall counter is incremented,
aborting with the stall error exactly when it reaches the threshold `T`;
a tick that observes byte progress resets the counter to 0; the counter
stays below `T` on every non-aborting tick.  With `T = 2` and a transport
that stops flushing at 50 % of 100 bytes, the loop aborts with the stall
error on the third tick (two stalled sampling intervals), and the whole
attempt fails with `Upload stalled - no progress detected`. -/
theorem C1_stall_detection (T total cur : Nat) (cb : ProgressCb) (st : TickSt)
    (hT : 1 ≤ T) (hcb : ∀ p b, cb p b = .ok ()) :
    (cur = st.lastBytesSent ∧ percentageOf total cur < 100
        ∧ 0 < percentageOf total cur →
      (((uploadTick T cb total st cur).2 = .error (.uploadErrorMsg stallMsg))
          ↔ T ≤ st.stallCounter + 1)
      ∧ (st.stallCounter + 1 < T →
          ∃ st1, (uploadTick T cb total st cur).2 = .ok st1
            ∧ st1.stallCounter = st.stallCounter + 1
            ∧ st1.lastBytesSent = st.lastBytesSent))
    ∧ (cur ≠ st.lastBytesSent →
        ∃ st1, (uploadTick T cb total st cur).2 = .ok st1
          ∧ st1.stallCounter = 0 ∧ st1.lastBytesSent = cur)
    ∧ (∀ st1, (uploadTick T cb total st cur).2 = .ok st1 → st1.stallCounter < T)
    ∧ runTicksU 2 okCb 100 ⟨0, 0, 0⟩ [50, 50, 50]
        = ([(50, 50)], .error (.uploadErrorMsg stallMsg))
    ∧ runTicksU 2 okCb 100 ⟨0, 0, 0⟩ [50, 50] = ([(50, 50)], .ok ⟨50, 50, 1⟩)
    ∧ Upload.upload_attempt okCb 100 2 none envStall
        = ([(0, 0), (50, 50)], .error (.uploadErrorMsg stallMsg)) :=
  ⟨fun hs => uploadTick_stalled T cb total st cur hcb hs,
   uploadTick_changed T cb total st cur hcb,
   fun st1 h => uploadTick_invariant T cb total st cur hT st1 h,
   by decide, by decide, by decide⟩

/-- Witness for C1: a tick with byte progress resets the stall counter. -/
theorem C1_stall_detection_witness :
    ∃ st1, (uploadTick 2 okCb 100 ⟨0, 0, 0⟩ 50).2 = .ok st1
      ∧ st1.stallCounter = 0 ∧ st1.lastBytesSent = 50 :=
  (C1_stall_detection 2 100 50 okCb ⟨0, 0, 0⟩ (by decide)
    (fun _ _ => rfl)).2.1 (by decide)

/-- C5: a failing progress observer aborts the attempt immediately — at
the initial 0 % report the attempt returns at once with the observer's
error wrapped as `UploadError::UploadError` (upload.rs) or returned as-is
(blossom.rs), before any transfer; a mid-transfer report failure aborts
the tick and the polling loop processes no further tick; the resulting
error is a different constructor from the transport failures
(`ReqwestError`). -/
theorem C5_callback_abort (cb : ProgressCb) (total T p b cur lp : Nat)
    (mime : Option String) (env : UEnv) (benv : BEnv)
    (sha : List Nat → List Nat) (data : List Nat) (st : TickSt) (e : String) :
    (∀ a, env.authResult = .ok a → cb 0 0 = .error e →
      Upload.upload_attempt cb total T mime env
        = ([(0, 0)], .error (.uploadErrorMsg e)))
    ∧ (st.lastPercentage < p → cb p b = .error e →
      reportStep cb st p b = (some (p, b), .error (.uploadErrorMsg e)))
    ∧ (∀ samples rep,
        uploadTick T cb total st cur = (rep, .error (.uploadErrorMsg e)) →
        runTicksU T cb total st (cur :: samples)
          = (rep.toList, .error (.uploadErrorMsg e)))
    ∧ (∀ m, (UploadError.uploadErrorMsg e) ≠ .reqwestError m)
    ∧ (benv.joinResult = .ok () → cb 0 0 = .error e →
      Blossom.upload_attempt cb sha data mime benv
        = ([.report 0 0], .error e))
    ∧ (percentageOf data.length cur ≠ lp →
      cb (percentageOf data.length cur) cur = .error e →
      Blossom.blossomTick cb data.length lp cur
        = (some (percentageOf data.length cur, cur), .error e)) := by
  refine ⟨?_, ?_, ?_, ?_, ?_, ?_⟩
  · intro a ha hcb
    unfold Upload.upload_attempt
    rw [ha, hcb]
  · intro hlt hcb
    unfold reportStep
    rw [if_pos hlt, hcb]
  · intro samples rep h
    rw [runTicksU, h]
  · intro m
    simp
  · intro hj hcb
    unfold Blossom.upload_attempt
    rw [hj, hcb]
  · intro hne hcb
    unfold Blossom.blossomTick
    rw [if_pos hne, hcb]

/-- Witness for C5: an aborting observer at the initial 0 % report makes
the concrete upload.rs attempt return its error immediately. -/
theorem C5_callback_abort_witness :
    Upload.upload_attempt abortCb 10 200 none envDup
      = ([(0, 0)], .error (.uploadErrorMsg "stop")) :=
  (C5_callback_abort abortCb 10 200 0 0 0 0 none envDup bEnvOk shaW dataW
    ⟨0, 0, 0⟩ "stop").1 "hdr" rfl rfl

/-- C3: the failover controllers try the servers in list order; an entry
whose URL fails to parse is recorded as the last error and skipped with no
upload call; the first successful upload short-circuits and is returned
with no later server contacted; after each failed server the progress
observer is reset (trace shape `FoShape`); exhaustion aggregates the last
error.  Concretely, `[invalid-url, working-server]` succeeds through the
second entry and returns its descriptor. -/
theorem C3_failover {τ : Type} (parse : String → Except String Unit) :
    (∀ (f : Nat → List τ × Except String String) servers i last,
      FoShape i (failoverP parse f servers i last).1)
    ∧ (∀ (f : Nat → List τ × Except String String) servers i last,
      FoShapeS i (failoverS parse f servers i last).1)
    ∧ (∀ (f : Nat → List τ × Except String String) s rest i last e,
      parse s = .error e →
      failoverP parse f (s :: rest) i last
        = (FoEv.invalid i
            :: (failoverP parse f rest (i + 1) ("Invalid server URL: " ++ e)).1,
           (failoverP parse f rest (i + 1) ("Invalid server URL: " ++ e)).2))
    ∧ (∀ (f : Nat → List τ × Except String String) i last,
      failoverP parse f [] i last
        = ([], .error ("All Blossom servers failed. Last error: " ++ last)))
    ∧ (∀ (f : Nat → List τ × Except String String) servers last k s e,
      servers[k]? = some s → parse s = .error e →
      ∀ evs, FoEv.upload k evs ∉ (failoverP parse f servers 0 last).1)
    ∧ (∀ (f : Nat → List τ × Except String String) servers last k u,
      (f k).2 = .ok u →
      (∃ sk, servers[k]? = some sk ∧ parse sk = .ok ()) →
      (∀ j, j < k →
        (∃ s e, servers[j]? = some s ∧ parse s = .error e)
        ∨ (∃ e, (f j).2 = .error e)) →
      (failoverP parse f servers 0 last).2 = .ok u
      ∧ ∀ j evs, FoEv.upload j evs ∈ (failoverP parse f servers 0 last).1 → j ≤ k)
    ∧ (Blossom.upload_blob_with_progress_and_failover okCb shaW dataW none envsW
        parseW ["not-a-url", "https://good"] 0).2 = .ok "https://b/x"
    ∧ (Blossom.upload_blob_with_progress_and_failover okCb shaW dataW none envsW
        parseW ["not-a-url", "https://good"] 0).1
      = [FoEv.invalid 0,
         FoEv.upload 1
           [REv.attemptEvs 0
             [AEv.report 0 0, AEv.mint (mkAuth dataW 1000),
              AEv.report 50 5, AEv.report 100 10]]] := by
  refine ⟨failoverP_shape parse, failoverS_shape parse, ?_, ?_, ?_, ?_,
    by decide, by decide⟩
  · intro f s rest i last e hp
    rw [failoverP, hp]
  · intro f i last
    rfl
  · intro f servers last k s e hs hp evs
    have := failoverP_invalid_skipped parse f servers 0 last k s e hs hp evs
    simpa using this
  · intro f servers last k u hku hsk hprev
    have h := failoverP_firstSuccess parse f k u hku servers 0 last (Nat.zero_le k)
      (by simpa using hsk)
      (by intro j _ hj; simpa using hprev j hj)
    exact h

/-- Witness for C3: the exhaustion equation at a concrete instance. -/
theorem C3_failover_witness :
    failoverP parseW (fun _ => (([] : List Unit), .error "x")) [] 0 "No servers available"
      = ([], .error "All Blossom servers failed. Last error: No servers available") :=
  (C3_failover parseW).2.2.2.1 (fun _ => (([] : List Unit), .error "x")) 0
    "No servers available"

/-- C7: `build_auth_header` mints, for each call, a capability whose
content names the Blossom upload authorization, whose expiration is
exactly 300 s after the call's `now`, whose verb is `Upload`, and whose
scope is the single SHA-256 hash of the payload; the header value is
`Nostr ` followed by the base64 of the signed event's JSON.  Every
capability minted inside an attempt is the one for that attempt's own
payload hash and timestamp — a retry attempt `i` mints from `(envs i).now`,
and different timestamps give different capabilities, so tokens are never
reused across attempts. -/
theorem C7_fresh_authorization (sign : Signer) (hash : List Nat) (now : Nat)
    (cb : ProgressCb) (sha : List Nat → List Nat) (data : List Nat)
    (mime : Option String) (env : BEnv) (envs : Nat → BEnv) (r : Nat) :
    (∀ ev, sign (mkAuth hash now) = .ok ev →
      Blossom.build_auth_header sign hash now
        = ([.mint (mkAuth hash now)], .ok ("Nostr " ++ base64Encode ev.json)))
    ∧ (mkAuth hash now).content = "Blossom upload authorization"
    ∧ (mkAuth hash now).expiration = now + 300
    ∧ (mkAuth hash now).verb = .upload
    ∧ (mkAuth hash now).scope = .blobSha256Hashes [hash]
    ∧ (∀ a ∈ mintsOf (Blossom.upload_attempt cb sha data mime env).1,
        a = mkAuth (sha data) env.now)
    ∧ (∀ i evs, REv.attemptEvs i evs
          ∈ (Blossom.upload_blob_with_progress cb sha data mime envs r).1 →
        ∀ a ∈ mintsOf evs, a = mkAuth (sha data) (envs i).now)
    ∧ (∀ h n1 n2, n1 ≠ n2 → mkAuth h n1 ≠ mkAuth h n2) := by
  refine ⟨?_, rfl, rfl, rfl, rfl, blossom_attempt_mints cb sha data mime env,
    ?_, ?_⟩
  · intro ev hs
    unfold Blossom.build_auth_header
    rw [hs]
  · intro i evs hmem a ha
    have hevs := retryGo_attempt_events
      (fun i => Blossom.upload_attempt cb sha data mime (envs i))
      "No upload attempts were made" (r + 1) 0 none i evs hmem
    rw [hevs] at ha
    exact blossom_attempt_mints cb sha data mime (envs i) a ha
  · intro h n1 n2 hne heq
    apply hne
    have := congrArg BlossomAuthorization.expiration heq
    simpa [mkAuth] using this

/-- Witness for C7: the concrete signer yields the concrete header. -/
theorem C7_fresh_authorization_witness :
    Blossom.build_auth_header signW [1, 2] 1000
      = ([.mint (mkAuth [1, 2] 1000)],
         .ok ("Nostr " ++ base64Encode [77, 97])) :=
  (C7_fresh_authorization signW [1, 2] 1000 okCb shaW dataW none bEnvOk
    (fun _ => bEnvOk) 0).1 ⟨[77, 97]⟩ rfl

/-- C4 counterexample: the claim as stated fails on `src/upload.rs`.  With
a 2-byte payload fully flushed before the first timer tick, the timer
reports 100 % and the attempt then issues its final 100 % report anyway,
so a successful attempt reports percentages `[0, 100, 100]` — the last
report neither strictly exceeds the previous one nor falls under the
claim's forced-100 exception (the timer HAD observed the completion). -/
theorem C4_progress_counterexample :
    (Upload.upload_attempt okCb 2 200 none envDup).2 = .ok "u"
    ∧ (Upload.upload_attempt okCb 2 200 none envDup).1.map Prod.fst
        = [0, 100, 100]
    ∧ ¬ C4Allowed [0, 100, 100] := by
  refine ⟨by decide, by decide, ?_⟩
  intro hC
  unfold C4Allowed at hC
  rcases hC with ⟨h0, hch⟩
  have h1 := (List.chain'_cons.mp hch).2
  have h2 := (List.chain'_cons.mp h1).1
  omega

/-- C4 (amended): on a successful `src/upload.rs` attempt the reported
percentages are the initial 0 %, a strictly increasing tick sequence
bounded by 100, and an *unconditionally* repeated terminal 100 % (this
repetition is the one departure from the claim); on a successful
`src/blossom.rs` attempt the claim holds as stated: the percentage
sequence is strictly increasing from the initial 0 % and terminates at
exactly 100 (forced only when the timer had not observed it). -/
theorem C4_progress_reports (cb : ProgressCb) (total T : Nat)
    (mime : Option String) (env : UEnv) (url : String)
    (sha : List Nat → List Nat) (data : List Nat) (benv : BEnv)
    (burl : String) :
    ((Upload.upload_attempt cb total T mime env).2 = .ok url →
      (∀ c ∈ env.samples, c ≤ total) →
      ∃ ps, (Upload.upload_attempt cb total T mime env).1.map Prod.fst
              = (0 :: ps) ++ [100]
        ∧ List.Chain' (· < ·) (0 :: ps)
        ∧ (∀ q ∈ ps, q ≤ 100)
        ∧ ((Upload.upload_attempt cb total T mime env).1.map Prod.fst).getLast?
            = some 100)
    ∧ ((Blossom.upload_attempt cb sha data mime benv).2 = .ok burl →
      List.Chain' (· ≤ ·) benv.samples →
      (∀ c ∈ benv.samples, c ≤ data.length) →
      benv.finalBytes = data.length →
      C4Allowed ((reportsOf
          (Blossom.upload_attempt cb sha data mime benv).1).map Prod.fst)
      ∧ ((reportsOf
          (Blossom.upload_attempt cb sha data mime benv).1).map Prod.fst).getLast?
          = some 100) := by
  constructor
  · intro hok hbound
    rcases upload_attempt_ok_reports cb total T mime env url hok with
      ⟨tick, st1, hrt, hrep⟩
    refine ⟨tick.map Prod.fst, ?_, ?_, ?_, ?_⟩
    · rw [hrep]
      simp
    · have hch := runTicksU_chain T cb total env.samples ⟨0, 0, 0⟩
      rw [hrt] at hch
      simpa using hch
    · intro q hq
      rcases List.mem_map.mp hq with ⟨r, hr, rfl⟩
      exact runTicksU_reports_le T cb total env.samples ⟨0, 0, 0⟩ hbound r
        (by rw [hrt]; exact hr)
    · rw [hrep]
      have hsplit : (((0, 0) :: (tick ++ [(100, total)])).map Prod.fst)
          = (0 :: tick.map Prod.fst) ++ [100] := by simp
      rw [hsplit]
      exact List.getLast?_concat _
  · intro hok hmono hbound hfinal
    rcases blossom_attempt_ok_events cb sha data mime benv burl hok with
      ⟨tick, lp1, ev, hrt, hsign, hcase⟩
    have hch0 : List.Chain' (· ≤ ·) (0 :: benv.samples) :=
      List.chain'_cons'.mpr ⟨fun y _ => Nat.zero_le y, hmono⟩
    have hchA := runTicksB_chain cb data.length benv.samples 0 hch0
    rw [percentageOf_zero, hrt] at hchA
    have hch : List.Chain' (· < ·) (0 :: tick.map Prod.fst) := hchA
    have hlastA := runTicksB_last cb data.length benv.samples 0 lp1
      (by rw [hrt])
    rw [hrt] at hlastA
    have hlast : lp1 = (tick.map Prod.fst).getLastD 0 := hlastA
    have hleA := runTicksB_reports_le cb data.length benv.samples 0 hbound
    rw [hrt] at hleA
    have hle : ∀ r ∈ tick, r.1 ≤ 100 := hleA
    rcases hcase with ⟨hfb, hlt, hevs⟩ | ⟨hnf, hevs⟩
    · rw [hevs]
      have hreports : reportsOf ((AEv.report 0 0
            :: [AEv.mint (mkAuth (sha data) benv.now)]
            ++ tick.map (fun r => AEv.report r.1 r.2))
            ++ [AEv.report 100 data.length])
          = ((0, 0) :: tick) ++ [(100, data.length)] := by
        rw [reportsOf_append]
        simp [reportsOf, reportsOf_append, reportsOf_map_report]
      rw [hreports]
      have hmapsplit : ((((0, 0) :: tick) ++ [(100, data.length)]).map Prod.fst)
          = (0 :: tick.map Prod.fst) ++ [100] := by simp
      rw [hmapsplit]
      have hlastlt : ∀ x ∈ (0 :: tick.map Prod.fst).getLast?, x < 100 := by
        intro x hx
        rw [List.getLast?_cons] at hx
        injection hx with hx
        rw [← List.getLastD_eq_getLast?, ← hlast] at hx
        omega
      constructor
      · unfold C4Allowed
        refine ⟨rfl, ?_⟩
        rw [List.chain'_append]
        exact ⟨hch, List.chain'_singleton 100, by
          intro x hx y hy
          simp at hy
          subst hy
          exact hlastlt x hx⟩
      · exact List.getLast?_concat _
    · rw [hevs]
      have hreports : reportsOf (AEv.report 0 0
            :: [AEv.mint (mkAuth (sha data) benv.now)]
            ++ tick.map (fun r => AEv.report r.1 r.2))
          = (0, 0) :: tick := by
        simp [reportsOf, reportsOf_append, reportsOf_map_report]
      rw [hreports]
      have hge : 100 ≤ lp1 := by
        by_contra hlt
        exact hnf ⟨hfinal, by omega⟩
      have htick_ne : tick.map Prod.fst ≠ [] := by
        intro hnil
        rw [hlast, hnil] at hge
        simp [List.getLastD] at hge
      have hlp100 : lp1 = 100 := by
        have hmem : (tick.map Prod.fst).getLastD 0 ∈ tick.map Prod.fst := by
          apply List.mem_of_mem_getLast?
          rw [List.getLastD_eq_getLast?] at hlast
          cases hg : (tick.map Prod.fst).getLast? with
          | none =>
            exact absurd (List.getLast?_eq_none_iff.mp hg) htick_ne
          | some x =>
            rw [List.getLastD_eq_getLast?, hg]
            rfl
        rcases List.mem_map.mp hmem with ⟨r, hr, hrfst⟩
        have := hle r hr
        rw [hlast]
        omega
      constructor
      · unfold C4Allowed
        exact ⟨rfl, by simpa using hch⟩
      · rw [List.map_cons, List.getLast?_cons, ← List.getLastD_eq_getLast?,
          ← hlast, hlp100]

/-- Witness for the amended C4 at concrete inputs: the duplicated-100
upload.rs attempt and the strictly increasing Blossom attempt. -/
theorem C4_progress_reports_witness :
    (∃ ps, (Upload.upload_attempt okCb 2 200 none envDup).1.map Prod.fst
        = (0 :: ps) ++ [100]
      ∧ List.Chain' (· < ·) (0 :: ps)
      ∧ (∀ q ∈ ps, q ≤ 100)
      ∧ ((Upload.upload_attempt okCb 2 200 none envDup).1.map Prod.fst).getLast?
          = some 100)
    ∧ (C4Allowed ((reportsOf
          (Blossom.upload_attempt okCb shaW dataW none bEnvOk).1).map Prod.fst)
      ∧ ((reportsOf
          (Blossom.upload_attempt okCb shaW dataW none bEnvOk).1).map Prod.fst).getLast?
          = some 100) :=
  ⟨(C4_progress_reports okCb 2 200 none envDup "u" shaW dataW bEnvOk
      "https://b/x").1 (by decide) (by decide),
   (C4_progress_reports okCb 2 200 none envDup "u" shaW dataW bEnvOk
      "https://b/x").2 (by decide) (List.chain'_pair.mpr (by omega))
      (by decide) (by decide)⟩

end VectorSDK
